import Mathlib

/-!
Verification development for the `hls` package: a shallow embedding of the
HLS playlist parsers (`parseMedia`, `parseMaster`), the aggregated stream
model (`ExtStream`, `ExtMedia`, `MasterPlaylist`, `MediaPlaylist`), URI
resolution (`ResolveURIs`), data-URI key decoding (`DecodeData`) and the
`Sort` operation, together with theorems about them.

Conventions of the embedding:
* Go strings are Lean `String`s; the Go standard-library helpers
  (`strings.HasPrefix`, `strings.TrimPrefix`, `strings.Cut`,
  `strings.Contains`, `strings.TrimSpace`) are modelled over `String.data`.
* `strconv.Atoi` is modelled as `goAtoi` with full int64 semantics on a
  64-bit platform: an optional sign followed by a non-empty run of ASCII
  digits, and the `ErrRange` behaviour — an out-of-range numeral yields
  the clamped bound (`2^63 - 1` or `-2^63`) together with an error.
  `goAtoiOk` is the error-checked result (used where the source aborts on
  any error), `atoiVal` the error-discarded value (used where the source
  writes `v, _ :=`).
* `strconv.ParseFloat` is used by the source only to decide success or
  failure of an `#EXTINF` duration, and the numeric value is never
  inspected by any claim, so the embedding keeps the raw duration text
  and models `err == nil` as `goParseFloatOk`: the special
  `inf`/`infinity` forms with optional sign and the unsigned `nan`,
  decimal and hexadecimal (`0x…p…`, exponent mandatory) numbers with
  digit-separating underscores placed as `strconv.underscoreOK` demands,
  full-string consumption, and no `ErrRange` overflow (magnitudes that
  round to infinity, at or beyond `2^1024 - 2^970`, are errors; underflow
  to zero is not an error in Go).
* `net/url` is an external collaborator: a parsed URL is an abstract
  record `URL`, `url.Parse` is an arbitrary function
  `urlParse : String → Option URL` (`none` models a parse error) and
  `(*url.URL).ResolveReference` an arbitrary function
  `rr : URL → URL → URL`; theorems quantify over both, so they hold for
  the real `net/url` in particular.  For `data:` URIs, `URL.scheme`
  models `url.URL.Scheme` and `URL.ssp` models `url.URL.Opaque` (the
  scheme-specific part after `data:`).
* Go maps with string keys are association lists whose keys are kept
  unique by construction.
-/

/-- Model of Go `strings.HasPrefix`. -/
def goHasPre (s pre : String) : Bool :=
  pre.data.isPrefixOf s.data

/-- Model of Go `strings.TrimPrefix`. -/
def goTrimPre (s pre : String) : String :=
  if goHasPre s pre then ⟨s.data.drop pre.data.length⟩ else s

/-- Model of Go `strings.Cut s ","`: split around the first comma,
returning the text before it, the text after it, and whether a comma was
found. -/
def cutComma (s : String) : String × String × Bool :=
  let a := s.data.takeWhile (fun c => c ≠ ',')
  match s.data.dropWhile (fun c => c ≠ ',') with
  | [] => (s, "", false)
  | _ :: rest => (⟨a⟩, ⟨rest⟩, true)

/-- Containment of `sub` as a contiguous run inside `s`. -/
def hasSubList (sub : List Char) : List Char → Bool
  | [] => sub.isEmpty
  | c :: rest => sub.isPrefixOf (c :: rest) || hasSubList sub rest

/-- Model of Go `strings.Contains`. -/
def goContains (s sub : String) : Bool :=
  hasSubList sub.data s.data

/-- One character of Go `unicode.IsSpace`: the Unicode `White_Space`
property, the set `strings.TrimSpace` trims (ASCII controls 9-13, space,
NEL, NBSP, and the Unicode space separators). -/
def goIsSpace (c : Char) : Bool :=
  let n := c.toNat
  n == 9 || n == 10 || n == 11 || n == 12 || n == 13 || n == 32 ||
    n == 133 || n == 160 || n == 5760 ||
    (decide (8192 ≤ n) && decide (n ≤ 8202)) || n == 8232 || n == 8233 ||
    n == 8239 || n == 8287 || n == 12288

/-- Model of Go `strings.TrimSpace` (leading and trailing
`unicode.IsSpace` characters). -/
def goTrimSpace (s : String) : String :=
  ⟨(s.data.dropWhile goIsSpace).reverse.dropWhile goIsSpace |>.reverse⟩

/-- Digits of a base-10 numeral: `none` unless the list is a non-empty run
of ASCII digits. -/
def digitsToNat : List Char → Option Nat
  | [] => none
  | cs =>
    if cs.all Char.isDigit then
      some (cs.foldl (fun n c => 10 * n + (c.toNat - 48)) 0)
    else none

/-- Model of Go `strconv.Atoi` on a 64-bit platform (where `int` is
int64): the returned value together with an error flag.  The accepted
syntax is an optional sign followed by a non-empty run of ASCII digits
(base 10, so no underscores); a syntactically invalid string yields
`(0, true)`; a numeral outside the int64 range yields the clamped bound
(`2^63 - 1` for positive overflow, `-2^63` for negative) together with
the error flag, exactly as `strconv.ErrRange` reports. -/
def goAtoi (s : String) : Int × Bool :=
  let core : Option Int :=
    match s.data with
    | '+' :: ds => (digitsToNat ds).map Int.ofNat
    | '-' :: ds => (digitsToNat ds).map (fun n => -(n : Int))
    | ds => (digitsToNat ds).map Int.ofNat
  match core with
  | none => (0, true)
  | some v =>
    if (2 : Int) ^ 63 - 1 < v then ((2 : Int) ^ 63 - 1, true)
    else if v < -((2 : Int) ^ 63) then (-((2 : Int) ^ 63), true)
    else (v, false)

/-- `strconv.Atoi` at the call sites that treat any error — syntax or
range — as failure: `some` exactly when Go's returned error is `nil`. -/
def goAtoiOk (s : String) : Option Int :=
  if (goAtoi s).2 then none else some (goAtoi s).1

/-- The value Go code observes when it discards the error of
`strconv.Atoi` (`v, _ :=` / `v, _ =`): `0` for a syntactically invalid
numeral, the clamped int64 bound for an out-of-range one. -/
def atoiVal (s : String) : Int :=
  (goAtoi s).1

/-- Case-insensitive ASCII comparison of a char list with a lowercase
pattern, used for the `inf` / `infinity` / `nan` forms of `ParseFloat`. -/
def eqFold (cs : List Char) (pat : List Char) : Bool :=
  cs.map Char.toLower == pat

/-- The special forms accepted by Go `strconv.ParseFloat` on the whole
string: `inf` and `infinity` with an optional sign, `nan` only unsigned
(the sign cases of Go's `special` fall through to the infinity check
alone, so `+nan` and `-nan` are syntax errors), all case-insensitive. -/
def specialFloatOk (cs : List Char) : Bool :=
  match cs with
  | '+' :: t => eqFold t "inf".data || eqFold t "infinity".data
  | '-' :: t => eqFold t "inf".data || eqFold t "infinity".data
  | t => eqFold t "inf".data || eqFold t "infinity".data || eqFold t "nan".data

/-- Hexadecimal digit as Go `readFloat` reads it (case-insensitive). -/
def isHexDigitGo (c : Char) : Bool :=
  c.isDigit || (decide ('a' ≤ c.toLower) && decide (c.toLower ≤ 'f'))

/-- Numeric value of one hexadecimal digit. -/
def hexDigitVal (c : Char) : Nat :=
  if c.isDigit then c.toNat - 48 else c.toLower.toNat - 87

/-- Value of a list of decimal digits. -/
def decDigitsVal (ds : List Char) : Nat :=
  ds.foldl (fun n c => 10 * n + (c.toNat - 48)) 0

/-- Value of a list of hexadecimal digits. -/
def hexDigitsVal (ds : List Char) : Nat :=
  ds.foldl (fun n c => 16 * n + hexDigitVal c) 0

/-- Scan a run of digits (per the digit test `isD`) in which Go's
`readFloat` loop also steps over underscores, returning the digits seen
(in order, underscores dropped) and the unconsumed rest; underscore
placement is validated separately by `underscoreOKGo`, as in Go. -/
def scanDigitsU (isD : Char → Bool) : List Char → List Char × List Char
  | [] => ([], [])
  | c :: t =>
    if isD c then
      let (ds, r) := scanDigitsU isD t
      (c :: ds, r)
    else if c = '_' then scanDigitsU isD t
    else ([], c :: t)

/-- Exponent part of Go `readFloat` after the `e`/`p` marker: an optional
sign, then a run that must begin with a digit and may continue with
digits and underscores.  Returns the signed exponent value (underscores
skipped) and the unconsumed rest; `none` when the first character after
the optional sign is not a digit. -/
def scanExpGo (cs : List Char) : Option (Int × List Char) :=
  let (sgn, cs2) : Int × List Char :=
    match cs with
    | '+' :: t => ((1 : Int), t)
    | '-' :: t => ((-1 : Int), t)
    | t => ((1 : Int), t)
  match cs2 with
  | c :: _ =>
    if c.isDigit then
      let (ds, r) := scanDigitsU Char.isDigit cs2
      some (sgn * (decDigitsVal ds : Int), r)
    else none
  | [] => none

/-- Decimal branch of Go `readFloat`, consuming the whole remaining
string (`ParseFloat` demands full consumption): digits with an optional
dot and an optional `e`/`E` exponent, at least one mantissa digit.
Returns the magnitude as `(D, e, false)` with value `D * 10^e`. -/
def decMantGo (cs : List Char) : Option (Nat × Int × Bool) :=
  let (intDs, r1) := scanDigitsU Char.isDigit cs
  let (fracDs, r2) : List Char × List Char :=
    match r1 with
    | '.' :: u => scanDigitsU Char.isDigit u
    | _ => ([], r1)
  if intDs.isEmpty && fracDs.isEmpty then none
  else
    match r2 with
    | [] => some (decDigitsVal (intDs ++ fracDs), -(fracDs.length : Int), false)
    | c :: u =>
      if c.toLower = 'e' then
        match scanExpGo u with
        | some (ev, []) =>
          some (decDigitsVal (intDs ++ fracDs), ev - (fracDs.length : Int), false)
        | _ => none
      else none

/-- Hexadecimal branch of Go `readFloat`, after the `0x` prefix: hex
digits with an optional dot and a mandatory `p`/`P` exponent, at least
one mantissa digit.  Returns the magnitude as `(D, e, true)` with value
`D * 2^e` (each fractional hex digit lowers the exponent by 4). -/
def hexMantGo (cs : List Char) : Option (Nat × Int × Bool) :=
  let (intDs, r1) := scanDigitsU isHexDigitGo cs
  let (fracDs, r2) : List Char × List Char :=
    match r1 with
    | '.' :: u => scanDigitsU isHexDigitGo u
    | _ => ([], r1)
  if intDs.isEmpty && fracDs.isEmpty then none
  else
    match r2 with
    | c :: u =>
      if c.toLower = 'p' then
        match scanExpGo u with
        | some (ev, []) =>
          some (hexDigitsVal (intDs ++ fracDs), ev - 4 * (fracDs.length : Int), true)
        | _ => none
      else none
    | [] => none

/-- Go `readFloat` over the whole string: an optional sign, then either
the hexadecimal branch (on a `0x`/`0X` prefix) or the decimal branch.
The sign is irrelevant to the overflow decision, so only the magnitude is
returned. -/
def readFloatGo (cs0 : List Char) : Option (Nat × Int × Bool) :=
  let cs1 := match cs0 with
    | '+' :: t => t
    | '-' :: t => t
    | t => t
  match cs1 with
  | '0' :: x :: t => if x.toLower = 'x' then hexMantGo t else decMantGo cs1
  | _ => decMantGo cs1

/-- Loop of Go `strconv.underscoreOK`: `saw = 0` after a digit (or the
base prefix), `saw = 1` after an underscore, `saw = 2` otherwise
(including the start).  An underscore must follow and be followed by a
digit. -/
def underscoreLoop (hex : Bool) : Nat → List Char → Bool
  | saw, [] => saw != 1
  | saw, c :: t =>
    if c.isDigit || (hex && isHexDigitGo c) then underscoreLoop hex 0 t
    else if c = '_' then
      if saw != 0 then false else underscoreLoop hex 1 t
    else if saw = 1 then false
    else underscoreLoop hex 2 t

/-- Port of Go `strconv.underscoreOK`: after an optional sign and an
optional `0b`/`0o`/`0x` base prefix (which counts as a digit),
underscores may appear only between digits. -/
def underscoreOKGo (cs0 : List Char) : Bool :=
  let cs1 := match cs0 with
    | '+' :: t => t
    | '-' :: t => t
    | t => t
  match cs1 with
  | '0' :: x :: t =>
    if x.toLower = 'b' || x.toLower = 'o' || x.toLower = 'x' then
      underscoreLoop (x.toLower = 'x') 0 t
    else underscoreLoop false 2 cs1
  | _ => underscoreLoop false 2 cs1

/-- Number of base-`base` digits of `n` (0 for `n = 0`), with explicit
fuel so that it evaluates by structural recursion. -/
def digitCountAux (base : Nat) : Nat → Nat → Nat
  | 0, _ => 0
  | fuel + 1, n => if n = 0 then 0 else digitCountAux base fuel (n / base) + 1

/-- Number of base-`base` digits of `n`. -/
def digitCount (base n : Nat) : Nat :=
  digitCountAux base n n

/-- Whether Go `strconv.ParseFloat(s, 64)` reports `ErrRange`: the
represented magnitude `D * 10^e` (decimal) or `D * 2^e` (hexadecimal)
rounds to infinity, i.e. reaches `2^1024 - 2^970`, the round-to-nearest
midpoint above the largest finite float64.  (Underflow to zero carries no
error in Go's `floatBits`, so it is not an error here either.)  The
digit-count bounds settle all magnitudes far from the threshold; the one
remaining decade or octave is compared exactly. -/
def floatOverflow (hex : Bool) (D : Nat) (e : Int) : Bool :=
  if D = 0 then false
  else
    let T : Nat := 2 ^ 1024 - 2 ^ 970
    if hex then
      let K : Int := ((digitCount 2 D : Nat) : Int)
      if K + e ≤ 1023 then false
      else if 1024 ≤ K - 1 + e then true
      else if 0 ≤ e then decide (T ≤ D * 2 ^ e.toNat)
      else decide (T * 2 ^ (-e).toNat ≤ D)
    else
      let L : Int := ((digitCount 10 D : Nat) : Int)
      if L + e ≤ 308 then false
      else if 309 ≤ L - 1 + e then true
      else if 0 ≤ e then decide (T ≤ D * 10 ^ e.toNat)
      else decide (T * 10 ^ (-e).toNat ≤ D)

/-- Model of the success (`err == nil`) of Go `strconv.ParseFloat(s, 64)`:
either a special `inf`/`infinity`/`nan` form, or a syntactically valid
decimal or hexadecimal number with valid underscore placement whose
magnitude does not overflow float64. -/
def goParseFloatOk (s : String) : Bool :=
  specialFloatOk s.data ||
    match readFloatGo s.data with
    | none => false
    | some (D, e, hex) => underscoreOKGo s.data && !floatOverflow hex D e

/-- Attribute list of one `#EXT-X-*` tag: Go `map[string]string` as an
association list with unique keys (later duplicate names overwrite). -/
def AttrMap : Type := List (String × String)

instance : DecidableEq AttrMap := by
  unfold AttrMap
  infer_instance

/-- Lookup modelling Go map indexing `m[k]`: the zero value `""` when the
key is absent. -/
def AttrMap.get (m : AttrMap) (k : String) : String :=
  ((List.find? (fun p => p.1 == k) m).map Prod.snd).getD ""

/-- Lookup modelling Go's two-result map indexing `v, ok := m[k]`. -/
def AttrMap.getOk (m : AttrMap) (k : String) : Option String :=
  (List.find? (fun p => p.1 == k) m).map Prod.snd

/-- Insert modelling Go map assignment `m[k] = v` (overwrite). -/
def AttrMap.set (m : AttrMap) (k v : String) : AttrMap :=
  match m with
  | [] => [(k, v)]
  | p :: rest => if p.1 == k then (k, v) :: rest else p :: AttrMap.set rest k v

/-- Split an attribute list into comma-separated fragments, where commas
inside double quotes do not separate.  The Boolean tracks whether the scan
is inside a quoted value. -/
def splitTopLevel : List Char → Bool → List Char → List (List Char)
  | [], _, acc => [acc.reverse]
  | '"' :: cs, inQ, acc => splitTopLevel cs (!inQ) ('"' :: acc)
  | ',' :: cs, false, acc => acc.reverse :: splitTopLevel cs false []
  | c :: cs, inQ, acc => splitTopLevel cs inQ (c :: acc)

/-- Strip one layer of wrapping double quotes from a value. -/
def stripQuotes (cs : List Char) : List Char :=
  match cs with
  | '"' :: rest =>
    if rest ≠ [] ∧ rest.getLast? = some '"' then rest.dropLast else cs
  | _ => cs

/-- Fold one `NAME=VALUE` fragment into the map: leading whitespace of the
name is trimmed, fragments with no `=` are skipped, quoted values are
unwrapped. -/
def addFragment (m : AttrMap) (frag : List Char) : AttrMap :=
  let frag := frag.dropWhile Char.isWhitespace
  let nm := frag.takeWhile (fun c => c ≠ '=')
  match frag.dropWhile (fun c => c ≠ '=') with
  | [] => m
  | _ :: v => AttrMap.set m ⟨nm⟩ ⟨stripQuotes v⟩

/-- Modelled from the spec: the attribute-list tokenizer `parseAttributes`
is called by every tag parser in the source but its definition is not
among the provided source files, so it is reconstructed from spec §4.1:
strip the literal tag `pre`, split the remainder into comma-separated
`NAME=VALUE` fragments where a comma inside double quotes is part of the
value, trim whitespace at the start of each name, skip fragments with no
`=`, strip wrapping quotes from values, keep the last binding of a
repeated name. -/
def parseAttributes (line : String) (pre : String) : AttrMap :=
  (splitTopLevel (goTrimPre line pre).data false []).foldl addFragment []

/-- Abstract model of a parsed `net/url.URL`.  `scheme` is `URL.Scheme`;
`ssp` is the scheme-specific part `URL.Opaque` (for a URI such as
`data:text/plain;base64,xxx`, everything after `data:`); `rest` stands for
all remaining components, which no claim inspects. -/
structure URL where
  scheme : String
  ssp : String
  rest : String
deriving DecidableEq, Repr

/-- Value of one base64 character in the standard alphabet. -/
def b64Val (c : Char) : Option Nat :=
  if 'A' ≤ c ∧ c ≤ 'Z' then some (c.toNat - 65)
  else if 'a' ≤ c ∧ c ≤ 'z' then some (c.toNat - 97 + 26)
  else if '0' ≤ c ∧ c ≤ '9' then some (c.toNat - 48 + 52)
  else if c = '+' then some 62
  else if c = '/' then some 63
  else none

/-- Decode base64 four characters at a time; the final quantum may carry
one or two `=` padding characters. -/
def b64Blocks : List Char → Option (List Nat)
  | [] => some []
  | c0 :: c1 :: c2 :: c3 :: rest => do
    let v0 ← b64Val c0
    let v1 ← b64Val c1
    if c2 = '=' then
      if c3 = '=' ∧ rest = [] then
        some [v0 * 4 + v1 / 16]
      else none
    else do
      let v2 ← b64Val c2
      if c3 = '=' then
        if rest = [] then
          some [v0 * 4 + v1 / 16, (v1 % 16) * 16 + v2 / 4]
        else none
      else do
        let v3 ← b64Val c3
        let tl ← b64Blocks rest
        some ([v0 * 4 + v1 / 16, (v1 % 16) * 16 + v2 / 4, (v2 % 4) * 64 + v3] ++ tl)
  | _ => none

/-- Model of Go `base64.StdEncoding.DecodeString`: newlines are skipped,
the remainder must be whole four-character quanta over the standard
alphabet with `=` padding only in the final quantum; the decoded bytes are
returned as `Nat`s below 256. -/
def b64Decode (s : String) : Option (List Nat) :=
  b64Blocks (s.data.filter (fun c => c ≠ '\n' ∧ c ≠ '\r'))

/-- Model of the source's `SessionKey` record (`#EXT-X-KEY` /
`#EXT-X-SESSION-KEY`). -/
structure SessionKey where
  method : String
  uri : Option URL
  keyFormat : String
  keyFormatVersions : String
  iv : String
  characteristics : String
deriving DecidableEq, Repr

/-- Translation of the source's `parseKey`. -/
def parseKey (urlParse : String → Option URL) (line : String) : SessionKey :=
  let pre := if goHasPre line "#EXT-X-SESSION-KEY:" then "#EXT-X-SESSION-KEY:" else "#EXT-X-KEY:"
  let attrs := parseAttributes line pre
  let k : SessionKey :=
    { method := attrs.get "METHOD"
      uri := none
      keyFormat := attrs.get "KEYFORMAT"
      keyFormatVersions := attrs.get "KEYFORMATVERSIONS"
      iv := attrs.get "IV"
      characteristics := attrs.get "CHARACTERISTICS" }
  match attrs.getOk "URI" with
  | some v =>
    if v ≠ "" then
      match urlParse v with
      | some u => { k with uri := some u }
      | none => k
    else k
  | none => k

/-- Translation of the source's `(*SessionKey).resolve`, with
`ResolveReference` abstracted as `rr`. -/
def SessionKey.resolve (rr : URL → URL → URL) (base : URL) (k : SessionKey) : SessionKey :=
  match k.uri with
  | none => k
  | some u => { k with uri := some (rr base u) }

/-- Translation of the source's `(*SessionKey).DecodeData`.  The decoded
bytes are `Nat`s; the error strings name the failing condition as the
source's `errors.New` messages do (the byte-offset suffix of Go's base64
`CorruptInputError` is elided). -/
def SessionKey.DecodeData (k : SessionKey) : Except String (List Nat) :=
  match k.uri with
  | none => .error "URI is nil"
  | some u =>
    if u.scheme ≠ "data" then .error "URI is not a data URI"
    else
      let (meta, dataString, found) := cutComma u.ssp
      if ¬ found then .error "invalid data URI: missing comma separator"
      else if ¬ goContains meta ";base64" then .error "data URI does not contain base64 indicator"
      else
        match b64Decode dataString with
        | some bs => .ok bs
        | none => .error "illegal base64 data"

/-- Model of the source's `Segment`.  The duration is kept as the raw text
accepted by `goParseFloatOk`; no claim inspects the numeric value (see the
header note on floats). -/
structure Segment where
  uri : Option URL
  duration : String
  title : String
deriving DecidableEq, Repr

/-- Translation of the source's `(*Segment).resolve`. -/
def Segment.resolve (rr : URL → URL → URL) (base : URL) (s : Segment) : Segment :=
  match s.uri with
  | none => s
  | some u => { s with uri := some (rr base u) }

/-- Model of the source's `MediaPlaylist` (`mapURI` is the Go field
`Map`). -/
structure MediaPlaylist where
  targetDuration : Int
  mediaSequence : Int
  version : Int
  playlistType : String
  segments : List Segment
  keys : List SessionKey
  mapURI : Option URL
  endList : Bool
deriving DecidableEq, Repr

/-- The zero `MediaPlaylist`, as allocated by `&MediaPlaylist{}`. -/
def MediaPlaylist.init : MediaPlaylist :=
  { targetDuration := 0, mediaSequence := 0, version := 0, playlistType := ""
    segments := [], keys := [], mapURI := none, endList := false }

/-- Translation of the source's `(*MediaPlaylist).ResolveURIs`. -/
def MediaPlaylist.ResolveURIs (rr : URL → URL → URL) (base : URL) (mp : MediaPlaylist) : MediaPlaylist :=
  { mp with
    keys := mp.keys.map (SessionKey.resolve rr base)
    segments := mp.segments.map (Segment.resolve rr base)
    mapURI := match mp.mapURI with
      | none => none
      | some u => some (rr base u) }

/-- The `#EXT-X-MAP:` case of `parseMedia`: when a non-empty `URI`
attribute is present and parses, the (single, last-wins) initialization
map is replaced. -/
def applyMapTag (urlParse : String → Option URL) (mp : MediaPlaylist) (line : String) : MediaPlaylist :=
  match (parseAttributes line "#EXT-X-MAP:").getOk "URI" with
  | some v =>
    if v ≠ "" then
      match urlParse v with
      | some u => { mp with mapURI := some u }
      | none => mp
    else mp
  | none => mp

/-- The segment built by an `#EXTINF:` line (duration before the first
comma, kept as text; trimmed title after it) and an optional consumed
URI line. -/
def extinfSeg (urlParse : String → Option URL) (line : String) (uriLine : Option String) : Segment :=
  { uri := match uriLine with
      | none => none
      | some nextLine => urlParse nextLine
    duration := (cutComma (goTrimPre line "#EXTINF:")).1
    title := goTrimSpace (cutComma (goTrimPre line "#EXTINF:")).2.1 }

/-- Append one segment. -/
def addSeg (mp : MediaPlaylist) (seg : Segment) : MediaPlaylist :=
  { mp with segments := mp.segments ++ [seg] }

/-- Translation of the source's `parseMedia` loop body.  The `#EXTINF`
case consumes the following line as the segment URI only when that line is
non-empty and does not start with `#`; hard failures return the error
naming the offending tag. -/
def parseMediaLoop (urlParse : String → Option URL) : List String → MediaPlaylist → Except String MediaPlaylist
  | [], mp => .ok mp
  | line :: rest, mp =>
    if goHasPre line "#EXT-X-VERSION:" then
      match goAtoiOk (goTrimPre line "#EXT-X-VERSION:") with
      | none => .error "invalid EXT-X-VERSION"
      | some v => parseMediaLoop urlParse rest { mp with version := v }
    else if goHasPre line "#EXT-X-TARGETDURATION:" then
      match goAtoiOk (goTrimPre line "#EXT-X-TARGETDURATION:") with
      | none => .error "invalid EXT-X-TARGETDURATION"
      | some v => parseMediaLoop urlParse rest { mp with targetDuration := v }
    else if goHasPre line "#EXT-X-MEDIA-SEQUENCE:" then
      match goAtoiOk (goTrimPre line "#EXT-X-MEDIA-SEQUENCE:") with
      | none => .error "invalid EXT-X-MEDIA-SEQUENCE"
      | some v => parseMediaLoop urlParse rest { mp with mediaSequence := v }
    else if goHasPre line "#EXT-X-PLAYLIST-TYPE:" then
      parseMediaLoop urlParse rest { mp with playlistType := goTrimPre line "#EXT-X-PLAYLIST-TYPE:" }
    else if goHasPre line "#EXT-X-ENDLIST" then
      parseMediaLoop urlParse rest { mp with endList := true }
    else if goHasPre line "#EXT-X-KEY:" then
      parseMediaLoop urlParse rest { mp with keys := mp.keys ++ [parseKey urlParse line] }
    else if goHasPre line "#EXT-X-MAP:" then
      parseMediaLoop urlParse rest (applyMapTag urlParse mp line)
    else if goHasPre line "#EXTINF:" then
      if goParseFloatOk (cutComma (goTrimPre line "#EXTINF:")).1 then
        match rest with
        | [] => parseMediaLoop urlParse [] (addSeg mp (extinfSeg urlParse line none))
        | nextLine :: rest2 =>
          if ¬ goHasPre nextLine "#" ∧ nextLine ≠ "" then
            parseMediaLoop urlParse rest2 (addSeg mp (extinfSeg urlParse line (some nextLine)))
          else
            parseMediaLoop urlParse (nextLine :: rest2) (addSeg mp (extinfSeg urlParse line none))
      else .error "invalid EXTINF duration"
    else parseMediaLoop urlParse rest mp

/-- Translation of the source's `parseMedia`. -/
def parseMedia (urlParse : String → Option URL) (lines : List String) : Except String MediaPlaylist :=
  parseMediaLoop urlParse lines MediaPlaylist.init

/-- Model of the source's `ExtStream`: one aggregated variant stream per
distinct URI line (`audioGroups` is the Go field `Audio`). -/
structure ExtStream where
  uri : Option URL
  id : Nat
  bandwidth : Int
  averageBandwidth : Int
  codecs : String
  resolution : String
  frameRate : String
  subtitles : String
  audioGroups : List String
deriving DecidableEq, Repr

/-- Translation of the source's `(*ExtStream).SortBandwidth`. -/
def ExtStream.SortBandwidth (s : ExtStream) : Int :=
  if s.averageBandwidth > 0 then s.averageBandwidth else s.bandwidth

/-- Model of the source's `ExtMedia` (`#EXT-X-MEDIA` rendition;
`isDefault` is the Go field `Default`). -/
structure ExtMedia where
  type : String
  groupID : String
  name : String
  language : String
  uri : Option URL
  autoSelect : Bool
  isDefault : Bool
  forced : Bool
  channels : String
  characteristics : String
  id : Nat
deriving DecidableEq, Repr

/-- Model of the source's `MasterPlaylist`. -/
structure MasterPlaylist where
  streams : List ExtStream
  medias : List ExtMedia
  sessionKeys : List SessionKey
deriving DecidableEq, Repr

/-- Translation of the source's `(*MasterPlaylist).ResolveURIs`. -/
def MasterPlaylist.ResolveURIs (rr : URL → URL → URL) (base : URL) (mp : MasterPlaylist) : MasterPlaylist :=
  { streams := mp.streams.map (fun s =>
      match s.uri with
      | none => s
      | some u => { s with uri := some (rr base u) })
    medias := mp.medias.map (fun r =>
      match r.uri with
      | none => r
      | some u => { r with uri := some (rr base u) })
    sessionKeys := mp.sessionKeys.map (SessionKey.resolve rr base) }

/-- Translation of the source's `parseRendition` (the rendition `ID` is
assigned by the caller). -/
def parseRendition (urlParse : String → Option URL) (line : String) : ExtMedia :=
  let attrs := parseAttributes line "#EXT-X-MEDIA:"
  let r : ExtMedia :=
    { type := attrs.get "TYPE"
      groupID := attrs.get "GROUP-ID"
      name := attrs.get "NAME"
      language := attrs.get "LANGUAGE"
      uri := none
      autoSelect := attrs.get "AUTOSELECT" == "YES"
      isDefault := attrs.get "DEFAULT" == "YES"
      forced := attrs.get "FORCED" == "YES"
      channels := attrs.get "CHANNELS"
      characteristics := attrs.get "CHARACTERISTICS"
      id := 0 }
  match attrs.getOk "URI" with
  | some v =>
    if v ≠ "" then
      match urlParse v with
      | some u => { r with uri := some u }
      | none => r
    else r
  | none => r

/-- Translation of the source's `populateStreamAttributes`. -/
def populateStreamAttributes (s : ExtStream) (attrs : AttrMap) : ExtStream :=
  { s with
    codecs := attrs.get "CODECS"
    resolution := attrs.get "RESOLUTION"
    frameRate := attrs.get "FRAME-RATE"
    subtitles := attrs.get "SUBTITLES"
    bandwidth := atoiVal (attrs.get "BANDWIDTH")
    averageBandwidth := atoiVal (attrs.get "AVERAGE-BANDWIDTH") }

/-- The unconditional `AUDIO` accumulation of the aggregation loop:
append the tag's `AUDIO` attribute when it is non-empty. -/
def addAudio (s : ExtStream) (attrs : AttrMap) : ExtStream :=
  if attrs.get "AUDIO" ≠ "" then
    { s with audioGroups := s.audioGroups ++ [attrs.get "AUDIO"] }
  else s

/-- One repeat tag applied to an aggregated stream: accumulate the
`AUDIO` group, then repopulate the primary attributes when this tag's
bandwidth is strictly lower. -/
def streamStep (s : ExtStream) (attrs : AttrMap) : ExtStream :=
  let s1 := addAudio s attrs
  if atoiVal (attrs.get "BANDWIDTH") < s1.bandwidth
  then populateStreamAttributes s1 attrs else s1

/-- Mutable state of one `parseMaster` call.  Go's
`map[string]*ExtStream` shares stream objects with the output slice by
pointer; the embedding stores in `streamMap` the index of the stream in
`streams` instead, and updates through that index. -/
structure MState where
  streams : List ExtStream
  medias : List ExtMedia
  sessionKeys : List SessionKey
  counter : Nat
  streamMap : List (String × Nat)
deriving DecidableEq, Repr

/-- The initial `parseMaster` state. -/
def MState.init : MState :=
  { streams := [], medias := [], sessionKeys := [], counter := 0, streamMap := [] }

/-- Lookup of a URI line in the seen-map. -/
def lookupIdx (m : List (String × Nat)) (u : String) : Option Nat :=
  (List.find? (fun p => p.1 == u) m).map Prod.snd

/-- Translation of the `#EXT-X-STREAM-INF` case of `parseMaster`: on a
fresh URI line create the stream (next counter value, parsed URI),
register it and populate every primary attribute from this tag; in both
cases accumulate a non-empty `AUDIO` attribute; on a repeated URI line
(`exists` in the source) repopulate the primary attributes only when this
tag's `BANDWIDTH` is strictly lower than the stored one.  The unreachable
`none` fallback covers the index lookup that Go's pointer sharing cannot
miss. -/
def stepStream (urlParse : String → Option URL) (st : MState) (attrs : AttrMap) (uriLine : String) : MState :=
  match lookupIdx st.streamMap uriLine with
  | none =>
    let s0 : ExtStream :=
      { uri := urlParse uriLine, id := st.counter, bandwidth := 0, averageBandwidth := 0
        codecs := "", resolution := "", frameRate := "", subtitles := "", audioGroups := [] }
    let s1 := addAudio (populateStreamAttributes s0 attrs) attrs
    { st with
      streams := st.streams ++ [s1]
      streamMap := st.streamMap ++ [(uriLine, st.streams.length)]
      counter := st.counter + 1 }
  | some idx =>
    match st.streams.get? idx with
    | none => st
    | some s => { st with streams := st.streams.set idx (streamStep s attrs) }

/-- Translation of the source's `parseMaster` loop.  A
`#EXT-X-STREAM-INF` tag always consumes the immediately following line as
the URI line; a tag that is the last line of input is dropped
(`i+1 >= len(lines)` → `continue`, which ends the loop). -/
def parseMasterLoop (urlParse : String → Option URL) : List String → MState → MState
  | [], st => st
  | line :: rest, st =>
    if goHasPre line "#EXT-X-MEDIA:" then
      let r := parseRendition urlParse line
      parseMasterLoop urlParse rest
        { st with medias := st.medias ++ [{ r with id := st.counter }], counter := st.counter + 1 }
    else if goHasPre line "#EXT-X-SESSION-KEY:" then
      parseMasterLoop urlParse rest
        { st with sessionKeys := st.sessionKeys ++ [parseKey urlParse line] }
    else if goHasPre line "#EXT-X-STREAM-INF:" then
      match rest with
      | [] => st
      | uriLine :: rest2 =>
        parseMasterLoop urlParse rest2
          (stepStream urlParse st (parseAttributes line "#EXT-X-STREAM-INF:") uriLine)
    else parseMasterLoop urlParse rest st

/-- The output playlist of a final state. -/
def MState.toPlaylist (st : MState) : MasterPlaylist :=
  { streams := st.streams, medias := st.medias, sessionKeys := st.sessionKeys }

/-- Translation of the source's `parseMaster`; its single return site is
`return masterPlaylist, nil`, so the result is always `Except.ok`. -/
def parseMaster (urlParse : String → Option URL) (lines : List String) : Except String MasterPlaylist :=
  .ok (parseMasterLoop urlParse lines MState.init).toPlaylist

/-- Tag-level view of a master playlist: the three kinds of lines
`parseMaster` acts on, in traversal order.  A `stream` event carries the
tag's attribute map and the (unconditionally consumed) following URI
line. -/
inductive MEvent where
  | media (line : String)
  | skey (line : String)
  | stream (attrs : AttrMap) (uriLine : String)
deriving DecidableEq

/-- The events of a line sequence, by the same traversal as
`parseMasterLoop` (a trailing `#EXT-X-STREAM-INF` tag with no following
line yields no event). -/
def masterEvents : List String → List MEvent
  | [] => []
  | line :: rest =>
    if goHasPre line "#EXT-X-MEDIA:" then .media line :: masterEvents rest
    else if goHasPre line "#EXT-X-SESSION-KEY:" then .skey line :: masterEvents rest
    else if goHasPre line "#EXT-X-STREAM-INF:" then
      match rest with
      | [] => []
      | uriLine :: rest2 =>
        .stream (parseAttributes line "#EXT-X-STREAM-INF:") uriLine :: masterEvents rest2
    else masterEvents rest

/-- One event of the `parseMaster` loop applied to the state. -/
def stepEvent (urlParse : String → Option URL) (st : MState) : MEvent → MState
  | .media line =>
    let r := parseRendition urlParse line
    { st with medias := st.medias ++ [{ r with id := st.counter }], counter := st.counter + 1 }
  | .skey line => { st with sessionKeys := st.sessionKeys ++ [parseKey urlParse line] }
  | .stream attrs uriLine => stepStream urlParse st attrs uriLine

/-- Event-level form of the `parseMaster` loop. -/
def processEvents (urlParse : String → Option URL) (evs : List MEvent) (st : MState) : MState :=
  evs.foldl (stepEvent urlParse) st

/-- The URI lines of the stream events, in order (one per
`#EXT-X-STREAM-INF` tag that is not the last line). -/
def urisOf (evs : List MEvent) : List String :=
  evs.filterMap (fun ev => match ev with | .stream _ u => some u | _ => none)

/-- The attribute maps of the stream events whose URI line is `u`: the
tags contributing to the aggregated stream of `u`, in tag order. -/
def tagsFor (evs : List MEvent) (u : String) : List AttrMap :=
  evs.filterMap (fun ev => match ev with
    | .stream attrs v => if v = u then some attrs else none
    | _ => none)

/-- The `#EXT-X-MEDIA` lines of the events, in order. -/
def mediaLinesOf (evs : List MEvent) : List String :=
  evs.filterMap (fun ev => match ev with | .media l => some l | _ => none)

/-- The `#EXT-X-SESSION-KEY` lines of the events, in order. -/
def skeyLinesOf (evs : List MEvent) : List String :=
  evs.filterMap (fun ev => match ev with | .skey l => some l | _ => none)

/-- First-occurrence deduplication: keep each string the first time it
appears and is not in `seen`. -/
def firstDedup : List String → List String → List String
  | _, [] => []
  | seen, x :: xs =>
    if x ∈ seen then firstDedup seen xs else x :: firstDedup (x :: seen) xs

/-- The identifier-assigning events: one `none` per `#EXT-X-MEDIA` tag and
one `some u` per first occurrence of the stream URI line `u` not in
`seen`.  Entity `k` of this list receives identifier `k`. -/
def newEvents : List String → List MEvent → List (Option String)
  | _, [] => []
  | seen, .media _ :: rest => none :: newEvents seen rest
  | seen, .skey _ :: rest => newEvents seen rest
  | seen, .stream _ u :: rest =>
    if u ∈ seen then newEvents seen rest else some u :: newEvents (u :: seen) rest

/-- The seen-set of `newEvents` after consuming `evs`. -/
def seenAfter : List String → List MEvent → List String
  | seen, [] => seen
  | seen, .stream _ u :: rest => seenAfter (if u ∈ seen then seen else u :: seen) rest
  | seen, _ :: rest => seenAfter seen rest

/-- Positions (counting from `k`) of the `none` entries. -/
def noneIdxsFrom : Nat → List (Option String) → List Nat
  | _, [] => []
  | k, none :: rest => k :: noneIdxsFrom (k + 1) rest
  | k, some _ :: rest => noneIdxsFrom (k + 1) rest

/-- Positions (counting from `k`) of the `some` entries. -/
def someIdxsFrom : Nat → List (Option String) → List Nat
  | _, [] => []
  | k, some _ :: rest => k :: someIdxsFrom (k + 1) rest
  | k, none :: rest => someIdxsFrom (k + 1) rest

/-- Pair each list entry with its position, counting from `k`. -/
def withIdxs : Nat → List String → List (String × Nat)
  | _, [] => []
  | k, u :: us => (u, k) :: withIdxs (k + 1) us

/-- The freshly created stream before its first tag is applied. -/
def blankStream (urlParse : String → Option URL) (u : String) (idv : Nat) : ExtStream :=
  { uri := urlParse u, id := idv, bandwidth := 0, averageBandwidth := 0
    codecs := "", resolution := "", frameRate := "", subtitles := "", audioGroups := [] }

/-- The aggregated stream for URI line `u` with identifier `idv` built
from its contributing tags: the first tag populates everything, later
tags go through `streamStep`.  (The `[]` case is never reached for a
stream that exists.) -/
def aggStream (urlParse : String → Option URL) (u : String) (idv : Nat) : List AttrMap → ExtStream
  | [] => blankStream urlParse u idv
  | t :: ts =>
    ts.foldl streamStep (addAudio (populateStreamAttributes (blankStream urlParse u idv) t) t)

/-- The streams of the final state, in closed form: one per distinct URI
line, in first-appearance order, with the identifier taken from the
position of its creating event in `newEvents` and the content aggregated
from its contributing tags. -/
def streamsSpec (urlParse : String → Option URL) (evs : List MEvent) : List ExtStream :=
  List.zipWith (fun u i => aggStream urlParse u i (tagsFor evs u))
    (firstDedup [] (urisOf evs)) (someIdxsFrom 0 (newEvents [] evs))

/-- The renditions of the final state, in closed form. -/
def mediasSpec (urlParse : String → Option URL) (evs : List MEvent) : List ExtMedia :=
  List.zipWith (fun line i => { parseRendition urlParse line with id := i })
    (mediaLinesOf evs) (noneIdxsFrom 0 (newEvents [] evs))

/-- The line-level loop equals the event-level fold. -/
theorem parseMasterLoop_eq_processEvents (urlParse : String → Option URL) (lines : List String) :
    ∀ st, parseMasterLoop urlParse lines st = processEvents urlParse (masterEvents lines) st := by
  induction lines using masterEvents.induct with
  | case1 => intro st; rfl
  | case2 line rest h ih =>
    intro st
    rw [parseMasterLoop.eq_def, masterEvents.eq_def]
    simp only [h, if_true, processEvents, List.foldl, stepEvent]
    exact ih _
  | case3 line rest h1 h2 ih =>
    intro st
    rw [parseMasterLoop.eq_def, masterEvents.eq_def]
    simp only [h1, h2, if_true, if_false, Bool.false_eq_true, processEvents, List.foldl, stepEvent]
    exact ih _
  | case4 line h1 h2 h3 =>
    intro st
    rw [parseMasterLoop.eq_def, masterEvents.eq_def]
    simp only [h1, h2, h3, if_true, if_false, Bool.false_eq_true, processEvents, List.foldl]
  | case5 line h1 h2 h3 uriLine rest2 ih =>
    intro st
    rw [parseMasterLoop.eq_def, masterEvents.eq_def]
    simp only [h1, h2, h3, if_true, if_false, Bool.false_eq_true, processEvents, List.foldl, stepEvent]
    exact ih _
  | case6 line rest h1 h2 h3 ih =>
    intro st
    rw [parseMasterLoop.eq_def, masterEvents.eq_def]
    simp only [h1, h2, h3, if_false, Bool.false_eq_true, processEvents, List.foldl]
    exact ih _
theorem firstDedup_append_single (x : String) :
    ∀ (l seen : List String), firstDedup seen (l ++ [x]) =
      firstDedup seen l ++ (if x ∈ seen ∨ x ∈ l then [] else [x]) := by
  intro l
  induction l with
  | nil =>
    intro seen
    by_cases hx : x ∈ seen <;> simp [firstDedup, hx]
  | cons y ys ih =>
    intro seen
    by_cases hy : y ∈ seen
    · have hcond : (x ∈ seen ∨ x ∈ y :: ys) ↔ (x ∈ seen ∨ x ∈ ys) := by
        by_cases hx : x = y
        · subst hx; simp [hy]
        · simp [List.mem_cons, hx]
      simp only [List.cons_append, firstDedup, if_pos hy, List.append_eq, ih]
      simp only [hcond]
    · have hcond : (x ∈ y :: seen ∨ x ∈ ys) ↔ (x ∈ seen ∨ x ∈ y :: ys) := by
        simp only [List.mem_cons]
        tauto
      simp only [List.cons_append, firstDedup, if_neg hy, List.append_eq, ih]
      simp only [hcond]

theorem mem_firstDedup (x : String) :
    ∀ (l seen : List String), x ∈ firstDedup seen l ↔ x ∈ l ∧ x ∉ seen := by
  intro l
  induction l with
  | nil => intro seen; simp [firstDedup]
  | cons y ys ih =>
    intro seen
    by_cases hy : y ∈ seen
    · rw [firstDedup, if_pos hy, ih, List.mem_cons]
      by_cases hx : x = y
      · subst hx; simp [hy]
      · simp [hx]
    · rw [firstDedup, if_neg hy, List.mem_cons, ih, List.mem_cons]
      by_cases hx : x = y
      · subst hx; simp [hy]
      · simp [hx]

theorem nodup_firstDedup : ∀ (l seen : List String), (firstDedup seen l).Nodup := by
  intro l
  induction l with
  | nil => intro seen; simp [firstDedup]
  | cons y ys ih =>
    intro seen
    by_cases hy : y ∈ seen
    · rw [firstDedup, if_pos hy]; exact ih _
    · rw [firstDedup, if_neg hy]
      refine List.nodup_cons.mpr ⟨fun hc => ?_, ih _⟩
      exact ((mem_firstDedup y ys (y :: seen)).mp hc).2 (List.mem_cons_self _ _)

theorem seenAfter_append (evs evs' : List MEvent) :
    ∀ seen, seenAfter seen (evs ++ evs') = seenAfter (seenAfter seen evs) evs' := by
  induction evs with
  | nil => intro seen; rfl
  | cons ev rest ih =>
    intro seen
    cases ev with
    | media l => simp only [List.cons_append, seenAfter, List.append_eq, ih]
    | skey l => simp only [List.cons_append, seenAfter, List.append_eq, ih]
    | stream attrs u => simp only [List.cons_append, seenAfter, List.append_eq, ih]

theorem mem_seenAfter (x : String) :
    ∀ (evs : List MEvent) (seen : List String),
      x ∈ seenAfter seen evs ↔ x ∈ seen ∨ x ∈ urisOf evs := by
  intro evs
  induction evs with
  | nil => intro seen; simp [seenAfter, urisOf]
  | cons ev rest ih =>
    intro seen
    cases ev with
    | media l => simp [seenAfter, urisOf, List.filterMap_cons, ih]
    | skey l => simp [seenAfter, urisOf, List.filterMap_cons, ih]
    | stream attrs u =>
      by_cases hu : u ∈ seen
      · rw [seenAfter, if_pos hu, ih]
        by_cases hx : x = u
        · subst hx; simp [hu, urisOf, List.filterMap_cons]
        · simp [urisOf, List.filterMap_cons, hx]
      · rw [seenAfter, if_neg hu, ih]
        by_cases hx : x = u
        · subst hx; simp [urisOf, List.filterMap_cons]
        · simp [urisOf, List.filterMap_cons, hx]

theorem newEvents_append (evs evs' : List MEvent) :
    ∀ seen, newEvents seen (evs ++ evs') =
      newEvents seen evs ++ newEvents (seenAfter seen evs) evs' := by
  induction evs with
  | nil => intro seen; rfl
  | cons ev rest ih =>
    intro seen
    cases ev with
    | media l => simp only [List.cons_append, newEvents, seenAfter, List.append_eq, ih]
    | skey l => simp only [List.cons_append, newEvents, seenAfter, List.append_eq, ih]
    | stream attrs u =>
      by_cases hu : u ∈ seen
      · simp only [List.cons_append, newEvents, seenAfter, List.append_eq, if_pos hu, ih]
      · simp only [List.cons_append, newEvents, seenAfter, List.append_eq, if_neg hu, ih]

theorem noneIdxsFrom_append (l l' : List (Option String)) :
    ∀ k, noneIdxsFrom k (l ++ l') = noneIdxsFrom k l ++ noneIdxsFrom (k + l.length) l' := by
  induction l with
  | nil => intro k; simp [noneIdxsFrom]
  | cons o rest ih =>
    intro k
    cases o with
    | none =>
      simp only [List.cons_append, noneIdxsFrom, List.append_eq, ih, List.length_cons]
      have : k + 1 + rest.length = k + (rest.length + 1) := by omega
      rw [this]
    | some u =>
      simp only [List.cons_append, noneIdxsFrom, List.append_eq, ih, List.length_cons]
      have : k + 1 + rest.length = k + (rest.length + 1) := by omega
      rw [this]

theorem someIdxsFrom_append (l l' : List (Option String)) :
    ∀ k, someIdxsFrom k (l ++ l') = someIdxsFrom k l ++ someIdxsFrom (k + l.length) l' := by
  induction l with
  | nil => intro k; simp [someIdxsFrom]
  | cons o rest ih =>
    intro k
    cases o with
    | none =>
      simp only [List.cons_append, someIdxsFrom, List.append_eq, ih, List.length_cons]
      have : k + 1 + rest.length = k + (rest.length + 1) := by omega
      rw [this]
    | some u =>
      simp only [List.cons_append, someIdxsFrom, List.append_eq, ih, List.length_cons]
      have : k + 1 + rest.length = k + (rest.length + 1) := by omega
      rw [this]

theorem withIdxs_append_single (us : List String) (x : String) :
    ∀ k, withIdxs k (us ++ [x]) = withIdxs k us ++ [(x, k + us.length)] := by
  induction us with
  | nil => intro k; simp [withIdxs]
  | cons u rest ih =>
    intro k
    simp only [List.cons_append, withIdxs, List.append_eq, ih, List.length_cons]
    have : k + 1 + rest.length = k + (rest.length + 1) := by omega
    rw [this]

theorem urisOf_append (evs evs' : List MEvent) :
    urisOf (evs ++ evs') = urisOf evs ++ urisOf evs' := by
  simp [urisOf, List.filterMap_append]

theorem tagsFor_append (evs evs' : List MEvent) (u : String) :
    tagsFor (evs ++ evs') u = tagsFor evs u ++ tagsFor evs' u := by
  simp [tagsFor, List.filterMap_append]

theorem mediaLinesOf_append (evs evs' : List MEvent) :
    mediaLinesOf (evs ++ evs') = mediaLinesOf evs ++ mediaLinesOf evs' := by
  simp [mediaLinesOf, List.filterMap_append]

theorem skeyLinesOf_append (evs evs' : List MEvent) :
    skeyLinesOf (evs ++ evs') = skeyLinesOf evs ++ skeyLinesOf evs' := by
  simp [skeyLinesOf, List.filterMap_append]

theorem urisOf_media (l : String) (evs : List MEvent) :
    urisOf (MEvent.media l :: evs) = urisOf evs := by
  simp [urisOf, List.filterMap_cons]

theorem urisOf_skey (l : String) (evs : List MEvent) :
    urisOf (MEvent.skey l :: evs) = urisOf evs := by
  simp [urisOf, List.filterMap_cons]

theorem urisOf_stream (attrs : AttrMap) (u : String) (evs : List MEvent) :
    urisOf (MEvent.stream attrs u :: evs) = u :: urisOf evs := by
  simp [urisOf, List.filterMap_cons]

theorem tagsFor_media (l : String) (evs : List MEvent) (u : String) :
    tagsFor (MEvent.media l :: evs) u = tagsFor evs u := by
  simp [tagsFor, List.filterMap_cons]

theorem tagsFor_skey (l : String) (evs : List MEvent) (u : String) :
    tagsFor (MEvent.skey l :: evs) u = tagsFor evs u := by
  simp [tagsFor, List.filterMap_cons]

theorem tagsFor_stream (attrs : AttrMap) (v : String) (evs : List MEvent) (u : String) :
    tagsFor (MEvent.stream attrs v :: evs) u =
      if v = u then attrs :: tagsFor evs u else tagsFor evs u := by
  by_cases h : v = u <;> simp [tagsFor, List.filterMap_cons, h]

theorem tagsFor_eq_nil_of_not_mem (evs : List MEvent) (u : String)
    (h : u ∉ urisOf evs) : tagsFor evs u = [] := by
  induction evs with
  | nil => rfl
  | cons ev rest ih =>
    cases ev with
    | media l =>
      rw [urisOf_media] at h
      rw [tagsFor_media]
      exact ih h
    | skey l =>
      rw [urisOf_skey] at h
      rw [tagsFor_skey]
      exact ih h
    | stream attrs v =>
      rw [urisOf_stream, List.mem_cons] at h
      push_neg at h
      rw [tagsFor_stream, if_neg (fun hc => h.1 hc.symm)]
      exact ih h.2

theorem tagsFor_ne_nil_of_mem (evs : List MEvent) (u : String)
    (h : u ∈ urisOf evs) : tagsFor evs u ≠ [] := by
  induction evs with
  | nil => simp [urisOf] at h
  | cons ev rest ih =>
    cases ev with
    | media l =>
      rw [urisOf_media] at h
      rw [tagsFor_media]
      exact ih h
    | skey l =>
      rw [urisOf_skey] at h
      rw [tagsFor_skey]
      exact ih h
    | stream attrs v =>
      rw [urisOf_stream, List.mem_cons] at h
      rw [tagsFor_stream]
      by_cases hvu : v = u
      · simp [hvu]
      · rw [if_neg hvu]
        rcases h with hc | hc
        · exact absurd hc.symm hvu
        · exact ih hc

theorem newEvents_filterMap_id (evs : List MEvent) :
    ∀ seen, (newEvents seen evs).filterMap id = firstDedup seen (urisOf evs) := by
  induction evs with
  | nil => intro seen; rfl
  | cons ev rest ih =>
    intro seen
    cases ev with
    | media l => rw [urisOf_media, newEvents, List.filterMap_cons]; exact ih seen
    | skey l => rw [urisOf_skey, newEvents]; exact ih seen
    | stream attrs u =>
      rw [urisOf_stream, newEvents, firstDedup]
      by_cases hu : u ∈ seen
      · rw [if_pos hu, if_pos hu]; exact ih seen
      · rw [if_neg hu, if_neg hu, List.filterMap_cons]
        simp only [id]
        rw [ih (u :: seen)]

theorem someIdxsFrom_length (l : List (Option String)) :
    ∀ k, (someIdxsFrom k l).length = (l.filterMap id).length := by
  induction l with
  | nil => intro k; rfl
  | cons o rest ih =>
    intro k
    cases o with
    | none => rw [someIdxsFrom, List.filterMap_cons]; exact ih (k + 1)
    | some u =>
      rw [someIdxsFrom, List.filterMap_cons]
      simp only [id, List.length_cons]
      rw [ih (k + 1)]

theorem noneIdxsFrom_newEvents_length (evs : List MEvent) :
    ∀ seen k, (noneIdxsFrom k (newEvents seen evs)).length = (mediaLinesOf evs).length := by
  induction evs with
  | nil => intro seen k; rfl
  | cons ev rest ih =>
    intro seen k
    cases ev with
    | media l =>
      rw [newEvents, noneIdxsFrom, mediaLinesOf, List.filterMap_cons]
      simp only [List.length_cons]
      rw [ih seen (k + 1)]
      rfl
    | skey l =>
      rw [newEvents, mediaLinesOf, List.filterMap_cons]
      exact ih seen k
    | stream attrs u =>
      rw [newEvents, mediaLinesOf, List.filterMap_cons]
      by_cases hu : u ∈ seen
      · rw [if_pos hu]; exact ih seen k
      · rw [if_neg hu, noneIdxsFrom]; exact ih (u :: seen) (k + 1)

theorem streamsSpec_length (urlParse : String → Option URL) (evs : List MEvent) :
    (streamsSpec urlParse evs).length = (firstDedup [] (urisOf evs)).length := by
  rw [streamsSpec, List.length_zipWith, someIdxsFrom_length, newEvents_filterMap_id]
  omega

theorem lookupIdx_withIdxs_not_mem (u : String) :
    ∀ (keys : List String) (k : Nat), u ∉ keys → lookupIdx (withIdxs k keys) u = none := by
  intro keys
  induction keys with
  | nil => intro k _; rfl
  | cons y ys ih =>
    intro k h
    rw [List.mem_cons, not_or] at h
    rw [withIdxs, lookupIdx, List.find?]
    have : (y == u) = false := by
      simp only [beq_eq_false_iff_ne, ne_eq]
      exact fun hc => h.1 hc.symm
    simp only [this]
    exact ih (k + 1) h.2

theorem lookupIdx_withIdxs_get (u : String) :
    ∀ (keys : List String) (j k : Nat), keys.Nodup → keys.get? j = some u →
      lookupIdx (withIdxs k keys) u = some (k + j) := by
  intro keys
  induction keys with
  | nil => intro j k _ h; simp at h
  | cons y ys ih =>
    intro j k hnd hget
    rw [withIdxs, lookupIdx, List.find?]
    cases j with
    | zero =>
      rw [List.get?] at hget
      have hy : y = u := by injection hget
      subst hy
      simp
    | succ j' =>
      rw [List.get?] at hget
      have hmem : u ∈ ys := List.get?_mem hget
      have hy : (y == u) = false := by
        simp only [beq_eq_false_iff_ne, ne_eq]
        intro hc
        subst hc
        exact (List.nodup_cons.mp hnd).1 hmem
      simp only [hy]
      have := ih j' (k + 1) (List.nodup_cons.mp hnd).2 hget
      rw [lookupIdx] at this
      rw [this]
      congr 1
      omega

theorem zipWith_congr_fn {α β γ : Type} (f g : α → β → γ) :
    ∀ (l₁ : List α) (l₂ : List β), (∀ a ∈ l₁, ∀ b, f a b = g a b) →
      List.zipWith f l₁ l₂ = List.zipWith g l₁ l₂ := by
  intro l₁
  induction l₁ with
  | nil => intro l₂ _; simp
  | cons a as ih =>
    intro l₂ h
    cases l₂ with
    | nil => simp
    | cons b bs =>
      rw [List.zipWith_cons_cons, List.zipWith_cons_cons,
        h a (List.mem_cons_self _ _) b, ih bs (fun x hx c => h x (List.mem_cons_of_mem _ hx) c)]

theorem zipWith_set_of_nodup {β γ : Type} (f g : String → β → γ) :
    ∀ (keys : List String) (ids : List β) (j : Nat) (u : String) (i : β),
      keys.Nodup → keys.get? j = some u → ids.get? j = some i →
      (∀ v, v ∈ keys → v ≠ u → ∀ w, f v w = g v w) →
      List.zipWith g keys ids = (List.zipWith f keys ids).set j (g u i) := by
  intro keys
  induction keys with
  | nil => intro ids j u i _ h; simp at h
  | cons y ys ih =>
    intro ids j u i hnd hku hii hfg
    cases ids with
    | nil => simp at hii
    | cons b bs =>
      cases j with
      | zero =>
        rw [List.get?] at hku hii
        have hy : y = u := by injection hku
        have hb : b = i := by injection hii
        subst hy; subst hb
        rw [List.zipWith_cons_cons, List.zipWith_cons_cons, List.set_cons_zero]
        congr 1
        refine (zipWith_congr_fn f g ys bs (fun v hv w => ?_)).symm
        refine hfg v (List.mem_cons_of_mem _ hv) (fun hc => ?_) w
        subst hc
        exact (List.nodup_cons.mp hnd).1 hv
      | succ j' =>
        rw [List.get?] at hku hii
        have hyu : y ≠ u := by
          intro hc
          subst hc
          exact (List.nodup_cons.mp hnd).1 (List.get?_mem hku)
        rw [List.zipWith_cons_cons, List.zipWith_cons_cons, List.set_cons_succ,
          hfg y (List.mem_cons_self _ _) hyu b,
          ih bs j' u i (List.nodup_cons.mp hnd).2 hku hii
            (fun v hv hvu w => hfg v (List.mem_cons_of_mem _ hv) hvu w)]

theorem aggStream_snoc (urlParse : String → Option URL) (u : String) (i : Nat)
    (tags : List AttrMap) (a : AttrMap) (h : tags ≠ []) :
    aggStream urlParse u i (tags ++ [a]) = streamStep (aggStream urlParse u i tags) a := by
  cases tags with
  | nil => exact absurd rfl h
  | cons t ts =>
    rw [List.cons_append, aggStream, aggStream, List.foldl_append]
    rfl

theorem populate_id (s : ExtStream) (attrs : AttrMap) :
    (populateStreamAttributes s attrs).id = s.id := rfl

theorem addAudio_id (s : ExtStream) (attrs : AttrMap) :
    (addAudio s attrs).id = s.id := by
  rw [addAudio]
  split <;> rfl

theorem streamStep_id (s : ExtStream) (attrs : AttrMap) :
    (streamStep s attrs).id = s.id := by
  rw [streamStep]
  split
  · rw [populate_id, addAudio_id]
  · rw [addAudio_id]

theorem foldl_streamStep_id (ts : List AttrMap) :
    ∀ s : ExtStream, (ts.foldl streamStep s).id = s.id := by
  induction ts with
  | nil => intro s; rfl
  | cons t ts ih =>
    intro s
    rw [List.foldl_cons, ih, streamStep_id]

theorem aggStream_id (urlParse : String → Option URL) (u : String) (i : Nat)
    (tags : List AttrMap) : (aggStream urlParse u i tags).id = i := by
  cases tags with
  | nil => rfl
  | cons t ts =>
    rw [aggStream, foldl_streamStep_id, addAudio_id, populate_id]
    rfl

theorem get?_zipWith {α β γ : Type} (f : α → β → γ) :
    ∀ (l₁ : List α) (l₂ : List β) (j : Nat) (a : α) (b : β),
      l₁.get? j = some a → l₂.get? j = some b →
      (List.zipWith f l₁ l₂).get? j = some (f a b) := by
  intro l₁
  induction l₁ with
  | nil => intro l₂ j a b h; simp at h
  | cons x xs ih =>
    intro l₂ j a b h1 h2
    cases l₂ with
    | nil => simp at h2
    | cons y ys =>
      cases j with
      | zero =>
        rw [List.get?] at h1 h2
        have hx : x = a := by injection h1
        have hy : y = b := by injection h2
        subst hx; subst hy
        rfl
      | succ j' =>
        rw [List.get?] at h1 h2
        rw [List.zipWith_cons_cons, List.get?]
        exact ih ys j' a b h1 h2

theorem stepStream_found (urlParse : String → Option URL) (st : MState) (attrs : AttrMap)
    (u : String) (j : Nat) (s : ExtStream)
    (hl : lookupIdx st.streamMap u = some j) (hs : st.streams.get? j = some s) :
    stepStream urlParse st attrs u
      = { st with streams := st.streams.set j (streamStep s attrs) } := by
  unfold stepStream
  rw [hl]
  show (match st.streams.get? j with
    | none => st
    | some s => { st with streams := st.streams.set j (streamStep s attrs) }) = _
  rw [hs]

theorem stepStream_new (urlParse : String → Option URL) (st : MState) (attrs : AttrMap)
    (u : String) (hl : lookupIdx st.streamMap u = none) :
    stepStream urlParse st attrs u
      = { st with
          streams := st.streams
            ++ [addAudio (populateStreamAttributes (blankStream urlParse u st.counter) attrs) attrs]
          streamMap := st.streamMap ++ [(u, st.streams.length)]
          counter := st.counter + 1 } := by
  unfold stepStream
  rw [hl]
  rfl

theorem aggStream_singleton (urlParse : String → Option URL) (u : String) (i : Nat)
    (attrs : AttrMap) :
    aggStream urlParse u i [attrs]
      = addAudio (populateStreamAttributes (blankStream urlParse u i) attrs) attrs := rfl

theorem masterInv (urlParse : String → Option URL) (evs : List MEvent) :
    (processEvents urlParse evs MState.init).streams = streamsSpec urlParse evs ∧
    (processEvents urlParse evs MState.init).medias = mediasSpec urlParse evs ∧
    (processEvents urlParse evs MState.init).sessionKeys = (skeyLinesOf evs).map (parseKey urlParse) ∧
    (processEvents urlParse evs MState.init).counter = (newEvents [] evs).length ∧
    (processEvents urlParse evs MState.init).streamMap = withIdxs 0 (firstDedup [] (urisOf evs)) := by
  induction evs using List.reverseRecOn with
  | nil => exact ⟨rfl, rfl, rfl, rfl, rfl⟩
  | append_singleton evs ev ih =>
    obtain ⟨ihS, ihM, ihK, ihC, ihMap⟩ := ih
    have hstep : processEvents urlParse (evs ++ [ev]) MState.init
        = stepEvent urlParse (processEvents urlParse evs MState.init) ev := by
      rw [processEvents, processEvents, List.foldl_append, List.foldl_cons, List.foldl_nil]
    have hlenKI : (firstDedup [] (urisOf evs)).length
        = (someIdxsFrom 0 (newEvents [] evs)).length := by
      rw [someIdxsFrom_length, newEvents_filterMap_id]
    have hlenML : (mediaLinesOf evs).length = (noneIdxsFrom 0 (newEvents [] evs)).length := by
      rw [noneIdxsFrom_newEvents_length]
    rw [hstep]
    cases ev with
    | media l =>
      have hur : urisOf (evs ++ [MEvent.media l]) = urisOf evs := by
        rw [urisOf_append, urisOf_media]
        simp [urisOf]
      have hne : newEvents [] (evs ++ [MEvent.media l]) = newEvents [] evs ++ [none] := by
        rw [newEvents_append]
        rfl
      have htags : ∀ v, tagsFor (evs ++ [MEvent.media l]) v = tagsFor evs v := by
        intro v
        rw [tagsFor_append]
        simp [tagsFor]
      have hml : mediaLinesOf (evs ++ [MEvent.media l]) = mediaLinesOf evs ++ [l] := by
        rw [mediaLinesOf_append]
        rfl
      have hsk : skeyLinesOf (evs ++ [MEvent.media l]) = skeyLinesOf evs := by
        rw [skeyLinesOf_append]
        simp [skeyLinesOf]
      refine ⟨?_, ?_, ?_, ?_, ?_⟩
      · have h1 : streamsSpec urlParse (evs ++ [MEvent.media l]) = streamsSpec urlParse evs := by
          rw [streamsSpec, streamsSpec, hur, hne, someIdxsFrom_append]
          simp only [someIdxsFrom, List.append_nil]
          exact zipWith_congr_fn _ _ _ _ (fun v _ i => by rw [htags v])
        rw [h1, ← ihS]
        rfl
      · have h2 : mediasSpec urlParse (evs ++ [MEvent.media l])
            = mediasSpec urlParse evs
              ++ [{ parseRendition urlParse l with id := (newEvents [] evs).length }] := by
          rw [mediasSpec, mediasSpec, hml, hne, noneIdxsFrom_append,
            List.zipWith_append _ _ _ _ _ hlenML]
          simp [noneIdxsFrom]
        rw [h2, ← ihM, ← ihC]
        rfl
      · rw [hsk, ← ihK]
        rfl
      · rw [hne, List.length_append, ← ihC]
        rfl
      · rw [hur, ← ihMap]
        rfl
    | skey l =>
      have hur : urisOf (evs ++ [MEvent.skey l]) = urisOf evs := by
        rw [urisOf_append, urisOf_skey]
        simp [urisOf]
      have hne : newEvents [] (evs ++ [MEvent.skey l]) = newEvents [] evs := by
        rw [newEvents_append]
        simp [newEvents]
      have htags : ∀ v, tagsFor (evs ++ [MEvent.skey l]) v = tagsFor evs v := by
        intro v
        rw [tagsFor_append]
        simp [tagsFor]
      have hml : mediaLinesOf (evs ++ [MEvent.skey l]) = mediaLinesOf evs := by
        rw [mediaLinesOf_append]
        simp [mediaLinesOf]
      have hsk : skeyLinesOf (evs ++ [MEvent.skey l]) = skeyLinesOf evs ++ [l] := by
        rw [skeyLinesOf_append]
        rfl
      refine ⟨?_, ?_, ?_, ?_, ?_⟩
      · have h1 : streamsSpec urlParse (evs ++ [MEvent.skey l]) = streamsSpec urlParse evs := by
          rw [streamsSpec, streamsSpec, hur, hne]
          exact zipWith_congr_fn _ _ _ _ (fun v _ i => by rw [htags v])
        rw [h1, ← ihS]
        rfl
      · have h2 : mediasSpec urlParse (evs ++ [MEvent.skey l]) = mediasSpec urlParse evs := by
          rw [mediasSpec, mediasSpec, hml, hne]
        rw [h2, ← ihM]
        rfl
      · rw [hsk, List.map_append, ← ihK]
        rfl
      · rw [hne, ← ihC]
        rfl
      · rw [hur, ← ihMap]
        rfl
    | stream attrs u =>
      set st := processEvents urlParse evs MState.init with hstdef
      have hurs : urisOf (evs ++ [MEvent.stream attrs u]) = urisOf evs ++ [u] := by
        rw [urisOf_append, urisOf_stream]
        simp [urisOf]
      have hml : mediaLinesOf (evs ++ [MEvent.stream attrs u]) = mediaLinesOf evs := by
        rw [mediaLinesOf_append]
        simp [mediaLinesOf]
      have hsk : skeyLinesOf (evs ++ [MEvent.stream attrs u]) = skeyLinesOf evs := by
        rw [skeyLinesOf_append]
        simp [skeyLinesOf]
      have htagsu : tagsFor (evs ++ [MEvent.stream attrs u]) u = tagsFor evs u ++ [attrs] := by
        rw [tagsFor_append, tagsFor_stream, if_pos rfl]
        rfl
      have htagsv : ∀ v, v ≠ u → tagsFor (evs ++ [MEvent.stream attrs u]) v = tagsFor evs v := by
        intro v hv
        rw [tagsFor_append, tagsFor_stream, if_neg (fun hc => hv hc.symm)]
        simp [tagsFor]
      have hSSold : streamsSpec urlParse evs
          = List.zipWith (fun v i => aggStream urlParse v i (tagsFor evs v))
            (firstDedup [] (urisOf evs)) (someIdxsFrom 0 (newEvents [] evs)) := rfl
      by_cases hu : u ∈ urisOf evs
      · -- repeated URI line: update in place, no new entity
        have hseen : u ∈ seenAfter [] evs := (mem_seenAfter u evs []).mpr (Or.inr hu)
        have hne : newEvents [] (evs ++ [MEvent.stream attrs u]) = newEvents [] evs := by
          rw [newEvents_append]
          simp [newEvents, hseen]
        have hkeys : firstDedup [] (urisOf (evs ++ [MEvent.stream attrs u]))
            = firstDedup [] (urisOf evs) := by
          rw [hurs, firstDedup_append_single]
          simp [hu]
        have hmemk : u ∈ firstDedup [] (urisOf evs) :=
          (mem_firstDedup u (urisOf evs) []).mpr ⟨hu, by simp⟩
        obtain ⟨j, hj⟩ := List.mem_iff_get?.mp hmemk
        have hnod := nodup_firstDedup (urisOf evs) []
        have hjlt : j < (firstDedup [] (urisOf evs)).length := (List.get?_eq_some.mp hj).1
        have hjlt2 : j < (someIdxsFrom 0 (newEvents [] evs)).length := by omega
        have hij : (someIdxsFrom 0 (newEvents [] evs)).get? j
            = some ((someIdxsFrom 0 (newEvents [] evs)).get ⟨j, hjlt2⟩) := List.get?_eq_get hjlt2
        have hlook : lookupIdx st.streamMap u = some j := by
          rw [ihMap]
          have h0 := lookupIdx_withIdxs_get u (firstDedup [] (urisOf evs)) j 0 hnod hj
          simpa using h0
        have hsget : st.streams.get? j
            = some (aggStream urlParse u ((someIdxsFrom 0 (newEvents [] evs)).get ⟨j, hjlt2⟩)
                (tagsFor evs u)) := by
          rw [ihS, hSSold]
          exact get?_zipWith _ _ _ j _ _ hj hij
        have htagsne : tagsFor evs u ≠ [] := tagsFor_ne_nil_of_mem evs u hu
        rw [stepEvent, stepStream_found urlParse st attrs u j _ hlook hsget]
        have hset := zipWith_set_of_nodup
          (fun v i => aggStream urlParse v i (tagsFor evs v))
          (fun v i => aggStream urlParse v i (tagsFor (evs ++ [MEvent.stream attrs u]) v))
          (firstDedup [] (urisOf evs)) (someIdxsFrom 0 (newEvents [] evs)) j u
          ((someIdxsFrom 0 (newEvents [] evs)).get ⟨j, hjlt2⟩) hnod hj hij
          (fun v hv hvne w => by simp only [htagsv v hvne])
        refine ⟨?_, ?_, ?_, ?_, ?_⟩
        · show st.streams.set j _ = streamsSpec urlParse (evs ++ [MEvent.stream attrs u])
          rw [streamsSpec, hkeys, hne, hset, ← hSSold, ← ihS]
          congr 1
          show streamStep (aggStream urlParse u
              ((someIdxsFrom 0 (newEvents [] evs)).get ⟨j, hjlt2⟩) (tagsFor evs u)) attrs
            = aggStream urlParse u ((someIdxsFrom 0 (newEvents [] evs)).get ⟨j, hjlt2⟩)
              (tagsFor (evs ++ [MEvent.stream attrs u]) u)
          rw [htagsu, aggStream_snoc urlParse u _ _ attrs htagsne]
        · show st.medias = mediasSpec urlParse (evs ++ [MEvent.stream attrs u])
          rw [mediasSpec, hml, hne, ← mediasSpec, ihM]
        · exact hsk ▸ ihK
        · show st.counter = (newEvents [] (evs ++ [MEvent.stream attrs u])).length
          rw [hne, ihC]
        · show st.streamMap = withIdxs 0 (firstDedup [] (urisOf (evs ++ [MEvent.stream attrs u])))
          rw [hkeys, ihMap]
      · -- fresh URI line: create, register and populate a new stream
        have hseen : u ∉ seenAfter [] evs := by
          intro hc
          rcases (mem_seenAfter u evs []).mp hc with h | h
          · simp at h
          · exact hu h
        have hne : newEvents [] (evs ++ [MEvent.stream attrs u])
            = newEvents [] evs ++ [some u] := by
          rw [newEvents_append]
          simp [newEvents, hseen]
        have hkeys : firstDedup [] (urisOf (evs ++ [MEvent.stream attrs u]))
            = firstDedup [] (urisOf evs) ++ [u] := by
          rw [hurs, firstDedup_append_single]
          simp [hu]
        have hnotk : u ∉ firstDedup [] (urisOf evs) :=
          fun hc => hu ((mem_firstDedup u _ _).mp hc).1
        have hlook : lookupIdx st.streamMap u = none := by
          rw [ihMap]
          exact lookupIdx_withIdxs_not_mem u _ 0 hnotk
        have htagsnil : tagsFor evs u = [] := tagsFor_eq_nil_of_not_mem evs u hu
        rw [stepEvent, stepStream_new urlParse st attrs u hlook]
        refine ⟨?_, ?_, ?_, ?_, ?_⟩
        · show st.streams ++ _ = streamsSpec urlParse (evs ++ [MEvent.stream attrs u])
          rw [streamsSpec, hkeys, hne, someIdxsFrom_append,
            List.zipWith_append _ _ _ _ _ hlenKI]
          have hcongr := zipWith_congr_fn
            (fun v i => aggStream urlParse v i (tagsFor (evs ++ [MEvent.stream attrs u]) v))
            (fun v i => aggStream urlParse v i (tagsFor evs v))
            (firstDedup [] (urisOf evs)) (someIdxsFrom 0 (newEvents [] evs))
            (fun v hv w => by
              have hvne : v ≠ u := fun hc => hnotk (hc ▸ hv)
              simp only [htagsv v hvne])
          rw [hcongr, ← hSSold, ← ihS]
          congr 1
          show [addAudio (populateStreamAttributes (blankStream urlParse u st.counter) attrs) attrs]
            = [aggStream urlParse u (0 + (newEvents [] evs).length)
                (tagsFor (evs ++ [MEvent.stream attrs u]) u)]
          rw [htagsu, htagsnil, Nat.zero_add, ← ihC, List.nil_append, aggStream_singleton]
        · show st.medias = mediasSpec urlParse (evs ++ [MEvent.stream attrs u])
          rw [mediasSpec, hml, hne, noneIdxsFrom_append]
          show st.medias = List.zipWith _ (mediaLinesOf evs)
            (noneIdxsFrom 0 (newEvents [] evs) ++ [])
          rw [List.append_nil, ← mediasSpec, ihM]
        · exact hsk ▸ ihK
        · show st.counter + 1 = (newEvents [] (evs ++ [MEvent.stream attrs u])).length
          rw [hne, ihC, List.length_append]
          rfl
        · show st.streamMap ++ [(u, st.streams.length)]
            = withIdxs 0 (firstDedup [] (urisOf (evs ++ [MEvent.stream attrs u])))
          rw [hkeys, withIdxs_append_single, ← ihMap]
          congr 2
          rw [ihS, streamsSpec_length, Nat.zero_add]

/-- The playlist returned by `parseMaster`, in closed form. -/
theorem parseMaster_eq (urlParse : String → Option URL) (lines : List String) :
    parseMaster urlParse lines = Except.ok
      { streams := streamsSpec urlParse (masterEvents lines)
        medias := mediasSpec urlParse (masterEvents lines)
        sessionKeys := (skeyLinesOf (masterEvents lines)).map (parseKey urlParse) } := by
  obtain ⟨hS, hM, hK, _, _⟩ := masterInv urlParse (masterEvents lines)
  rw [parseMaster, parseMasterLoop_eq_processEvents, MState.toPlaylist, hS, hM, hK]

/-- The value of the `BANDWIDTH` attribute of one tag as the aggregation
loop reads it (`strconv.Atoi` with the error discarded): `0` when absent
or not a numeral, the clamped int64 bound when out of range. -/
def bwOf (t : AttrMap) : Int :=
  atoiVal (t.get "BANDWIDTH")

/-- The first tag attaining the minimum bandwidth among `cur :: ts`
(strict comparison, so ties keep the earlier tag). -/
def firstMinTag : AttrMap → List AttrMap → AttrMap
  | cur, [] => cur
  | cur, t :: ts => if bwOf t < bwOf cur then firstMinTag t ts else firstMinTag cur ts

/-- The six primary attributes stored in a stream. -/
def primaryOfStream (s : ExtStream) : String × String × String × String × Int × Int :=
  (s.codecs, s.resolution, s.frameRate, s.subtitles, s.bandwidth, s.averageBandwidth)

/-- The six primary attributes a tag populates. -/
def primaryOfTag (t : AttrMap) : String × String × String × String × Int × Int :=
  (t.get "CODECS", t.get "RESOLUTION", t.get "FRAME-RATE", t.get "SUBTITLES",
    bwOf t, atoiVal (t.get "AVERAGE-BANDWIDTH"))

theorem primaryOfStream_addAudio (s : ExtStream) (t : AttrMap) :
    primaryOfStream (addAudio s t) = primaryOfStream s := by
  rw [addAudio]
  split <;> rfl

theorem primaryOfStream_populate (s : ExtStream) (t : AttrMap) :
    primaryOfStream (populateStreamAttributes s t) = primaryOfTag t := rfl

theorem bandwidth_of_primary (s : ExtStream) (t : AttrMap)
    (h : primaryOfStream s = primaryOfTag t) : s.bandwidth = bwOf t := by
  have := congrArg (fun p => p.2.2.2.2.1) h
  simpa [primaryOfStream, primaryOfTag] using this

theorem foldl_streamStep_primary (ts : List AttrMap) :
    ∀ (s : ExtStream) (cur : AttrMap), primaryOfStream s = primaryOfTag cur →
      primaryOfStream (ts.foldl streamStep s) = primaryOfTag (firstMinTag cur ts) := by
  induction ts with
  | nil => intro s cur h; exact h
  | cons t ts ih =>
    intro s cur h
    rw [List.foldl_cons, firstMinTag]
    have hbw : s.bandwidth = bwOf cur := bandwidth_of_primary s cur h
    by_cases hlt : bwOf t < bwOf cur
    · rw [if_pos hlt]
      refine ih _ t ?_
      rw [streamStep]
      have hlt2 : atoiVal (t.get "BANDWIDTH") < (addAudio s t).bandwidth := by
        have : (addAudio s t).bandwidth = s.bandwidth := by
          have := congrArg (fun p => p.2.2.2.2.1) (primaryOfStream_addAudio s t)
          simpa [primaryOfStream] using this
        rw [this, hbw]
        exact hlt
      rw [if_pos hlt2]
      exact primaryOfStream_populate _ t
    · rw [if_neg hlt]
      refine ih _ cur ?_
      rw [streamStep]
      have hlt2 : ¬ atoiVal (t.get "BANDWIDTH") < (addAudio s t).bandwidth := by
        have heq : (addAudio s t).bandwidth = s.bandwidth := by
          have := congrArg (fun p => p.2.2.2.2.1) (primaryOfStream_addAudio s t)
          simpa [primaryOfStream] using this
        rw [heq, hbw]
        exact hlt
      rw [if_neg hlt2]
      rw [primaryOfStream_addAudio]
      exact h

theorem aggStream_primary (urlParse : String → Option URL) (u : String) (i : Nat)
    (t : AttrMap) (ts : List AttrMap) :
    primaryOfStream (aggStream urlParse u i (t :: ts)) = primaryOfTag (firstMinTag t ts) := by
  rw [aggStream]
  refine foldl_streamStep_primary ts _ t ?_
  rw [primaryOfStream_addAudio, primaryOfStream_populate]

theorem bwOf_firstMinTag (ts : List AttrMap) :
    ∀ cur, bwOf (firstMinTag cur ts) = (ts.map bwOf).foldl min (bwOf cur) := by
  induction ts with
  | nil => intro cur; rfl
  | cons t ts ih =>
    intro cur
    rw [firstMinTag, List.map_cons, List.foldl_cons]
    by_cases hlt : bwOf t < bwOf cur
    · rw [if_pos hlt, ih t]
      congr 1
      omega
    · rw [if_neg hlt, ih cur]
      congr 1
      omega

/-- The `AUDIO` contribution of one tag: its non-empty `AUDIO` value. -/
def audioOf (t : AttrMap) : Option String :=
  if t.get "AUDIO" = "" then none else some (t.get "AUDIO")

theorem addAudio_groups (s : ExtStream) (t : AttrMap) :
    (addAudio s t).audioGroups = s.audioGroups ++ (audioOf t).toList := by
  rw [addAudio, audioOf]
  by_cases h : t.get "AUDIO" = ""
  · simp [h]
  · simp [h]

theorem populate_groups (s : ExtStream) (t : AttrMap) :
    (populateStreamAttributes s t).audioGroups = s.audioGroups := rfl

theorem streamStep_groups (s : ExtStream) (t : AttrMap) :
    (streamStep s t).audioGroups = s.audioGroups ++ (audioOf t).toList := by
  rw [streamStep]
  split
  · rw [populate_groups, addAudio_groups]
  · rw [addAudio_groups]

theorem foldl_streamStep_groups (ts : List AttrMap) :
    ∀ s : ExtStream, (ts.foldl streamStep s).audioGroups
      = s.audioGroups ++ ts.filterMap audioOf := by
  induction ts with
  | nil => intro s; simp
  | cons t ts ih =>
    intro s
    rw [List.foldl_cons, ih, streamStep_groups, List.filterMap_cons]
    cases h : audioOf t <;> simp [List.append_assoc]

theorem aggStream_groups (urlParse : String → Option URL) (u : String) (i : Nat)
    (t : AttrMap) (ts : List AttrMap) :
    (aggStream urlParse u i (t :: ts)).audioGroups = (t :: ts).filterMap audioOf := by
  rw [aggStream, foldl_streamStep_groups, addAudio_groups, populate_groups, List.filterMap_cons]
  cases h : audioOf t <;> simp [blankStream]

theorem streamsSpec_map_id (urlParse : String → Option URL) (evs : List MEvent) :
    (streamsSpec urlParse evs).map ExtStream.id = someIdxsFrom 0 (newEvents [] evs) := by
  rw [streamsSpec]
  have hlen : (firstDedup [] (urisOf evs)).length = (someIdxsFrom 0 (newEvents [] evs)).length := by
    rw [someIdxsFrom_length, newEvents_filterMap_id]
  generalize firstDedup [] (urisOf evs) = keys at hlen ⊢
  generalize someIdxsFrom 0 (newEvents [] evs) = ids at hlen ⊢
  induction keys generalizing ids with
  | nil => cases ids with
    | nil => simp
    | cons i is => simp at hlen
  | cons u us ih =>
    cases ids with
    | nil => simp at hlen
    | cons i is =>
      rw [List.zipWith_cons_cons, List.map_cons, aggStream_id, ih is (by simpa using hlen)]

theorem mediasSpec_map_id (urlParse : String → Option URL) (evs : List MEvent) :
    (mediasSpec urlParse evs).map ExtMedia.id = noneIdxsFrom 0 (newEvents [] evs) := by
  rw [mediasSpec]
  have hlen : (mediaLinesOf evs).length = (noneIdxsFrom 0 (newEvents [] evs)).length := by
    rw [noneIdxsFrom_newEvents_length]
  generalize mediaLinesOf evs = mls at hlen ⊢
  generalize noneIdxsFrom 0 (newEvents [] evs) = ids at hlen ⊢
  induction mls generalizing ids with
  | nil => cases ids with
    | nil => simp
    | cons i is => simp at hlen
  | cons l ls ih =>
    cases ids with
    | nil => simp at hlen
    | cons i is =>
      rw [List.zipWith_cons_cons, List.map_cons, ih is (by simpa using hlen)]

theorem mem_noneIdxsFrom_ge (x : Nat) :
    ∀ (l : List (Option String)) (k : Nat), x ∈ noneIdxsFrom k l → k ≤ x := by
  intro l
  induction l with
  | nil => intro k h; simp [noneIdxsFrom] at h
  | cons o rest ih =>
    intro k h
    cases o with
    | none =>
      rw [noneIdxsFrom, List.mem_cons] at h
      rcases h with h | h
      · omega
      · have := ih (k + 1) h; omega
    | some u =>
      rw [noneIdxsFrom] at h
      have := ih (k + 1) h; omega

theorem mem_someIdxsFrom_ge (x : Nat) :
    ∀ (l : List (Option String)) (k : Nat), x ∈ someIdxsFrom k l → k ≤ x := by
  intro l
  induction l with
  | nil => intro k h; simp [someIdxsFrom] at h
  | cons o rest ih =>
    intro k h
    cases o with
    | some u =>
      rw [someIdxsFrom, List.mem_cons] at h
      rcases h with h | h
      · omega
      · have := ih (k + 1) h; omega
    | none =>
      rw [someIdxsFrom] at h
      have := ih (k + 1) h; omega

theorem nodup_noneIdxsFrom : ∀ (l : List (Option String)) (k : Nat), (noneIdxsFrom k l).Nodup := by
  intro l
  induction l with
  | nil => intro k; simp [noneIdxsFrom]
  | cons o rest ih =>
    intro k
    cases o with
    | none =>
      rw [noneIdxsFrom]
      refine List.nodup_cons.mpr ⟨fun hc => ?_, ih (k + 1)⟩
      have := mem_noneIdxsFrom_ge k rest (k + 1) hc
      omega
    | some u => rw [noneIdxsFrom]; exact ih (k + 1)

theorem nodup_someIdxsFrom : ∀ (l : List (Option String)) (k : Nat), (someIdxsFrom k l).Nodup := by
  intro l
  induction l with
  | nil => intro k; simp [someIdxsFrom]
  | cons o rest ih =>
    intro k
    cases o with
    | some u =>
      rw [someIdxsFrom]
      refine List.nodup_cons.mpr ⟨fun hc => ?_, ih (k + 1)⟩
      have := mem_someIdxsFrom_ge k rest (k + 1) hc
      omega
    | none => rw [someIdxsFrom]; exact ih (k + 1)

theorem disjoint_noneIdxs_someIdxs (x : Nat) :
    ∀ (l : List (Option String)) (k : Nat), x ∈ noneIdxsFrom k l → x ∉ someIdxsFrom k l := by
  intro l
  induction l with
  | nil => intro k h; simp [noneIdxsFrom] at h
  | cons o rest ih =>
    intro k h hc
    cases o with
    | none =>
      rw [noneIdxsFrom, List.mem_cons] at h
      rw [someIdxsFrom] at hc
      rcases h with h | h
      · have := mem_someIdxsFrom_ge x rest (k + 1) hc; omega
      · exact ih (k + 1) h hc
    | some u =>
      rw [noneIdxsFrom] at h
      rw [someIdxsFrom, List.mem_cons] at hc
      rcases hc with hc | hc
      · have := mem_noneIdxsFrom_ge x rest (k + 1) h; omega
      · exact ih (k + 1) h hc

theorem firstDedup_length_card (l : List String) :
    (firstDedup [] l).length = l.toFinset.card := by
  have hnd : (firstDedup [] l).Nodup := nodup_firstDedup l []
  have hset : (firstDedup [] l).toFinset = l.toFinset := by
    ext x
    simp [List.mem_toFinset, mem_firstDedup]
  rw [← hset, List.toFinset_card_of_nodup hnd]

theorem filterMap_audioOf_length (l : List AttrMap) :
    (l.filterMap audioOf).length = (l.filter (fun t => !(t.get "AUDIO" == ""))).length := by
  induction l with
  | nil => rfl
  | cons t ts ih =>
    rw [List.filterMap_cons, List.filter_cons]
    by_cases h : t.get "AUDIO" = ""
    · simp [audioOf, h, ih]
    · simp [audioOf, h, ih]

/-- Accessing stream `k` of the parse result together with its URI key
and identifier. -/
theorem parseMaster_stream_at (urlParse : String → Option URL) (lines : List String)
    (mp : MasterPlaylist) (k : Nat) (u : String) (s : ExtStream)
    (h : parseMaster urlParse lines = Except.ok mp)
    (hk : (firstDedup [] (urisOf (masterEvents lines))).get? k = some u)
    (hs : mp.streams.get? k = some s) :
    ∃ i, s = aggStream urlParse u i (tagsFor (masterEvents lines) u) := by
  rw [parseMaster_eq] at h
  injection h with h
  subst h
  have hklt : k < (firstDedup [] (urisOf (masterEvents lines))).length :=
    (List.get?_eq_some.mp hk).1
  have hlen : (firstDedup [] (urisOf (masterEvents lines))).length
      = (someIdxsFrom 0 (newEvents [] (masterEvents lines))).length := by
    rw [someIdxsFrom_length, newEvents_filterMap_id]
  have hklt2 : k < (someIdxsFrom 0 (newEvents [] (masterEvents lines))).length := by omega
  have hik : (someIdxsFrom 0 (newEvents [] (masterEvents lines))).get? k
      = some ((someIdxsFrom 0 (newEvents [] (masterEvents lines))).get ⟨k, hklt2⟩) :=
    List.get?_eq_get hklt2
  have hz := get?_zipWith
    (fun v i => aggStream urlParse v i (tagsFor (masterEvents lines) v))
    (firstDedup [] (urisOf (masterEvents lines)))
    (someIdxsFrom 0 (newEvents [] (masterEvents lines))) k _ _ hk hik
  have hs2 : (streamsSpec urlParse (masterEvents lines)).get? k
      = some (aggStream urlParse u ((someIdxsFrom 0 (newEvents [] (masterEvents lines))).get ⟨k, hklt2⟩)
          (tagsFor (masterEvents lines) u)) := hz
  have hs3 : (streamsSpec urlParse (masterEvents lines)).get? k = some s := hs
  rw [hs2] at hs3
  injection hs3 with hs3
  exact ⟨_, hs3.symm⟩

/-- Shared counting fact: the parse result has one stream per distinct
URI line. -/
theorem parseMaster_streams_length (urlParse : String → Option URL)
    (lines : List String) (mp : MasterPlaylist)
    (h : parseMaster urlParse lines = Except.ok mp) :
    mp.streams.length = (urisOf (masterEvents lines)).toFinset.card := by
  rw [parseMaster_eq] at h
  injection h with h
  subst h
  show (streamsSpec urlParse (masterEvents lines)).length = _
  rw [streamsSpec_length, firstDedup_length_card]

/-- C1: for every master playlist line sequence, `parseMaster` produces
exactly one aggregated stream record per distinct URI-line string
following an `#EXT-X-STREAM-INF:` tag: the number of stream entries is
the number of distinct such URI strings (`urisOf (masterEvents lines)`
lists one URI-line string per tag, so its `toFinset.card` is the number
of distinct ones), never the number of tags. -/
theorem parseMaster_stream_count_eq_distinct_uris (urlParse : String → Option URL)
    (lines : List String) (mp : MasterPlaylist)
    (h : parseMaster urlParse lines = Except.ok mp) :
    mp.streams.length = (urisOf (masterEvents lines)).toFinset.card :=
  parseMaster_streams_length urlParse lines mp h

/-- C1 witness: two tags pointing at the same URI line produce one
stream. -/
theorem parseMaster_stream_count_witness :
    ∃ mp, parseMaster (fun _ => none)
        ["#EXT-X-STREAM-INF:BANDWIDTH=1", "v.m3u8", "#EXT-X-STREAM-INF:BANDWIDTH=2", "v.m3u8"]
        = Except.ok mp
      ∧ mp.streams.length
        = (urisOf (masterEvents
            ["#EXT-X-STREAM-INF:BANDWIDTH=1", "v.m3u8", "#EXT-X-STREAM-INF:BANDWIDTH=2", "v.m3u8"])).toFinset.card
      ∧ mp.streams.length = 1 := by
  refine ⟨_, rfl, parseMaster_stream_count_eq_distinct_uris (fun _ => none) _ _ rfl, ?_⟩
  decide

/-- C4: the audio-group list of the aggregated stream whose URI key is
`u` (the `k`-th distinct URI line) is exactly the sequence, in tag order,
of the non-empty `AUDIO` attribute values of the tags contributing to
`u`, and its length is the number of contributing tags with a non-empty
`AUDIO` attribute. -/
theorem parseMaster_audio_accumulation (urlParse : String → Option URL)
    (lines : List String) (mp : MasterPlaylist) (k : Nat) (u : String) (s : ExtStream)
    (h : parseMaster urlParse lines = Except.ok mp)
    (hk : (firstDedup [] (urisOf (masterEvents lines))).get? k = some u)
    (hs : mp.streams.get? k = some s) :
    s.audioGroups = (tagsFor (masterEvents lines) u).filterMap audioOf ∧
    s.audioGroups.length
      = ((tagsFor (masterEvents lines) u).filter (fun t => !(t.get "AUDIO" == ""))).length := by
  obtain ⟨i, hi⟩ := parseMaster_stream_at urlParse lines mp k u s h hk hs
  have hmem : u ∈ urisOf (masterEvents lines) :=
    ((mem_firstDedup u _ _).mp (List.get?_mem hk)).1
  have hne := tagsFor_ne_nil_of_mem (masterEvents lines) u hmem
  obtain ⟨t, ts, hts⟩ : ∃ t ts, tagsFor (masterEvents lines) u = t :: ts := by
    cases htf : tagsFor (masterEvents lines) u with
    | nil => exact absurd htf hne
    | cons t ts => exact ⟨t, ts, rfl⟩
  subst hi
  rw [hts, aggStream_groups, ← hts, filterMap_audioOf_length, hts]
  exact ⟨rfl, rfl⟩

/-- C4 witness: spec Scenario B, two tags with `AUDIO="aac"` and
`AUDIO="ac3"` for the same URI `v.m3u8` accumulate `["aac", "ac3"]`. -/
theorem parseMaster_audio_accumulation_witness :
    ∃ s, (parseMasterLoop (fun _ => none)
        ["#EXT-X-STREAM-INF:BANDWIDTH=5000000,AUDIO=\"aac\"", "v.m3u8",
         "#EXT-X-STREAM-INF:BANDWIDTH=4500000,AUDIO=\"ac3\"", "v.m3u8"]
        MState.init).streams.get? 0 = some s
      ∧ s.audioGroups = ["aac", "ac3"] := by
  have h := parseMaster_audio_accumulation (fun _ => none)
    ["#EXT-X-STREAM-INF:BANDWIDTH=5000000,AUDIO=\"aac\"", "v.m3u8",
     "#EXT-X-STREAM-INF:BANDWIDTH=4500000,AUDIO=\"ac3\"", "v.m3u8"]
    _ 0 "v.m3u8" _ rfl (by decide) rfl
  exact ⟨_, rfl, by rw [h.1]; decide⟩

/-- C2 (amended): for a stream with at least two contributing tags
(`tagsFor … = t :: ts` with `ts ≠ []`), the stored bandwidth is the
minimum of the contributing tags' `BANDWIDTH` values as `strconv.Atoi`
yields them with the error discarded (`bwOf`: `0` for an absent or
syntactically invalid `BANDWIDTH`, the clamped int64 bound for an
out-of-range numeral — not `0`, which is where the original claim
fails, see `parseMaster_min_bandwidth_counterexample`), and all six
primary attributes come from the first tag attaining that minimum:
`firstMinTag` overwrites only on a strictly lower bandwidth, so equal
bandwidth keeps the first-seen tag's attributes. -/
theorem parseMaster_min_bandwidth_primary (urlParse : String → Option URL)
    (lines : List String) (mp : MasterPlaylist) (k : Nat) (u : String) (s : ExtStream)
    (t : AttrMap) (ts : List AttrMap)
    (h : parseMaster urlParse lines = Except.ok mp)
    (hk : (firstDedup [] (urisOf (masterEvents lines))).get? k = some u)
    (hs : mp.streams.get? k = some s)
    (htags : tagsFor (masterEvents lines) u = t :: ts)
    (hts : ts ≠ []) :
    s.bandwidth = (ts.map bwOf).foldl min (bwOf t) ∧
    s.bandwidth = bwOf (firstMinTag t ts) ∧
    s.codecs = (firstMinTag t ts).get "CODECS" ∧
    s.resolution = (firstMinTag t ts).get "RESOLUTION" ∧
    s.frameRate = (firstMinTag t ts).get "FRAME-RATE" ∧
    s.subtitles = (firstMinTag t ts).get "SUBTITLES" ∧
    s.averageBandwidth = atoiVal ((firstMinTag t ts).get "AVERAGE-BANDWIDTH") := by
  obtain ⟨i, hi⟩ := parseMaster_stream_at urlParse lines mp k u s h hk hs
  subst hi
  rw [htags]
  have hp := aggStream_primary urlParse u i t ts
  rw [primaryOfStream, primaryOfTag, Prod.mk.injEq, Prod.mk.injEq, Prod.mk.injEq,
    Prod.mk.injEq, Prod.mk.injEq] at hp
  obtain ⟨h1, h2, h3, h4, h5, h6⟩ := hp
  refine ⟨?_, h5, h1, h2, h3, h4, h6⟩
  rw [h5, bwOf_firstMinTag]

/-- C2 witness: spec Scenario B, bandwidths 5000000 then 4500000 for the
same URI: the stored bandwidth is the minimum 4500000 and the primary
attributes come from the second tag. -/
theorem parseMaster_min_bandwidth_witness :
    ∃ s, (parseMasterLoop (fun _ => none)
        ["#EXT-X-STREAM-INF:BANDWIDTH=5000000,AUDIO=\"aac\"", "v.m3u8",
         "#EXT-X-STREAM-INF:BANDWIDTH=4500000,AUDIO=\"ac3\"", "v.m3u8"]
        MState.init).streams.get? 0 = some s
      ∧ s.bandwidth = 4500000 := by
  have h := parseMaster_min_bandwidth_primary (fun _ => none)
    ["#EXT-X-STREAM-INF:BANDWIDTH=5000000,AUDIO=\"aac\"", "v.m3u8",
     "#EXT-X-STREAM-INF:BANDWIDTH=4500000,AUDIO=\"ac3\"", "v.m3u8"]
    _ 0 "v.m3u8" _
    (parseAttributes "#EXT-X-STREAM-INF:BANDWIDTH=5000000,AUDIO=\"aac\"" "#EXT-X-STREAM-INF:")
    [parseAttributes "#EXT-X-STREAM-INF:BANDWIDTH=4500000,AUDIO=\"ac3\"" "#EXT-X-STREAM-INF:"]
    rfl (by decide) rfl (by decide) (by decide)
  refine ⟨_, rfl, ?_⟩
  rw [h.1]
  decide

/-- C2 counterexample to the original claim, which counts an unparseable
`BANDWIDTH` as `0`: `BANDWIDTH=10000000000000000000` is beyond int64, so
`strconv.Atoi` errors on it and the original claim reads it as `0`;
with `BANDWIDTH=9223372036854775807` following for the same URI, the
claimed minimum is `0`, attained by the first tag.  The code instead
observes the clamped value `2^63 - 1` for the first tag, the strict `<`
comparison fails on the resulting tie, and the stored bandwidth is
`2^63 - 1 ≠ 0` (with the first tag's `CODECS` kept). -/
theorem parseMaster_min_bandwidth_counterexample :
    (parseMasterLoop (fun _ => none)
        ["#EXT-X-STREAM-INF:BANDWIDTH=10000000000000000000,CODECS=\"A\"", "v.m3u8",
         "#EXT-X-STREAM-INF:BANDWIDTH=9223372036854775807,CODECS=\"B\"", "v.m3u8"]
        MState.init).streams.map (fun s => (s.bandwidth, s.codecs))
      = [((2 : Int) ^ 63 - 1, "A")]
    ∧ goAtoi "10000000000000000000" = ((2 : Int) ^ 63 - 1, true)
    ∧ goAtoi "9223372036854775807" = ((2 : Int) ^ 63 - 1, false)
    ∧ ((2 : Int) ^ 63 - 1 : Int) ≠ 0 := by
  exact ⟨rfl, by decide, by decide, by decide⟩

/-- C7: identifiers come from one counter shared by renditions and
streams: listing the identifier-assigning events (`newEvents`: one entry
per `#EXT-X-MEDIA` tag and one per first occurrence of a stream URI
line, repeats assigning nothing), the medias' ids are exactly the
positions of the media entries and the streams' ids exactly the
positions of the first-occurrence entries, so all ids are distinct and
in first-appearance order; the number of entities is the number of media
tags plus the number of distinct URI lines. -/
theorem parseMaster_id_assignment (urlParse : String → Option URL)
    (lines : List String) (mp : MasterPlaylist)
    (h : parseMaster urlParse lines = Except.ok mp) :
    mp.medias.map ExtMedia.id = noneIdxsFrom 0 (newEvents [] (masterEvents lines)) ∧
    mp.streams.map ExtStream.id = someIdxsFrom 0 (newEvents [] (masterEvents lines)) ∧
    (mp.medias.map ExtMedia.id ++ mp.streams.map ExtStream.id).Nodup ∧
    mp.medias.length = (mediaLinesOf (masterEvents lines)).length ∧
    mp.streams.length = (urisOf (masterEvents lines)).toFinset.card := by
  have hcount := parseMaster_streams_length urlParse lines mp h
  rw [parseMaster_eq] at h
  injection h with h
  subst h
  have hm : (mediasSpec urlParse (masterEvents lines)).map ExtMedia.id
      = noneIdxsFrom 0 (newEvents [] (masterEvents lines)) := mediasSpec_map_id _ _
  have hsid : (streamsSpec urlParse (masterEvents lines)).map ExtStream.id
      = someIdxsFrom 0 (newEvents [] (masterEvents lines)) := streamsSpec_map_id _ _
  refine ⟨hm, hsid, ?_, ?_, hcount⟩
  · rw [hm, hsid, List.nodup_append]
    exact ⟨nodup_noneIdxsFrom _ 0, nodup_someIdxsFrom _ 0,
      fun x hx => disjoint_noneIdxs_someIdxs x _ 0 hx⟩
  · show (mediasSpec urlParse (masterEvents lines)).length = _
    rw [mediasSpec, List.length_zipWith, noneIdxsFrom_newEvents_length]
    omega

/-- C7 witness: a media tag, a new stream, a repeat of the same stream
URI and a second media tag produce ids 0, 2 for the medias and 1 for the
single stream. -/
theorem parseMaster_id_assignment_witness :
    ∃ mp, parseMaster (fun _ => none)
        ["#EXT-X-MEDIA:TYPE=AUDIO", "#EXT-X-STREAM-INF:BANDWIDTH=1", "v",
         "#EXT-X-STREAM-INF:BANDWIDTH=2", "v", "#EXT-X-MEDIA:TYPE=VIDEO"]
        = Except.ok mp
      ∧ mp.medias.map ExtMedia.id = [0, 2]
      ∧ mp.streams.map ExtStream.id = [1]
      ∧ (mp.medias.map ExtMedia.id ++ mp.streams.map ExtStream.id).Nodup := by
  have h := parseMaster_id_assignment (fun _ => none)
    ["#EXT-X-MEDIA:TYPE=AUDIO", "#EXT-X-STREAM-INF:BANDWIDTH=1", "v",
     "#EXT-X-STREAM-INF:BANDWIDTH=2", "v", "#EXT-X-MEDIA:TYPE=VIDEO"]
    _ rfl
  refine ⟨_, rfl, ?_, ?_, h.2.2.1⟩
  · rw [h.1]; decide
  · rw [h.2.1]; decide

/-- C9: `parseMaster` is total and infallible: its single return site is
`return masterPlaylist, nil`, so every line sequence (however malformed)
yields a playlist and no error; only `parseMedia` has failing paths. -/
theorem parseMaster_total_no_error (urlParse : String → Option URL) (lines : List String) :
    ∃ mp, parseMaster urlParse lines = Except.ok mp :=
  ⟨_, rfl⟩

set_option maxHeartbeats 2000000

theorem goHasPre_iff (s p : String) : goHasPre s p = true ↔ p.data <+: s.data := by
  rw [goHasPre, List.isPrefixOf_iff_prefix]

theorem goHasPre_mono (s p q : String) (hpq : p.data <+: q.data)
    (h : goHasPre s q = true) : goHasPre s p = true := by
  rw [goHasPre_iff] at h ⊢
  exact hpq.trans h

theorem goHasPre_false (s p q : String) (h : goHasPre s p = true)
    (h1 : ¬ q.data <+: p.data) (h2 : ¬ p.data <+: q.data) : goHasPre s q = false := by
  rw [goHasPre_iff] at h
  rw [Bool.eq_false_iff, ne_eq, goHasPre_iff]
  intro hc
  rcases List.prefix_or_prefix_of_prefix h hc with hd | hd
  · exact h2 hd
  · exact h1 hd

/-- C10: `parseMaster` consumes the line immediately after an
`#EXT-X-STREAM-INF:` tag as the variant's aggregation key
unconditionally — the equations hold for every `uriLine`, including `""`
and lines starting with `#` — a tag that is the last line is dropped,
two tags followed by the same arbitrary line aggregate into one stream,
and, by contrast, the media parser's `#EXTINF` does not consume a
following comment or empty line. -/
theorem parseMaster_streaminf_consumes_next (urlParse : String → Option URL) :
    (∀ (tag uriLine : String) (rest : List String) (st : MState),
      goHasPre tag "#EXT-X-STREAM-INF:" = true →
      parseMasterLoop urlParse (tag :: uriLine :: rest) st
        = parseMasterLoop urlParse rest
            (stepStream urlParse st (parseAttributes tag "#EXT-X-STREAM-INF:") uriLine)) ∧
    (∀ (tag : String) (st : MState), goHasPre tag "#EXT-X-STREAM-INF:" = true →
      parseMasterLoop urlParse [tag] st = st) ∧
    (∀ (tag1 tag2 uriLine : String) (mp : MasterPlaylist),
      goHasPre tag1 "#EXT-X-STREAM-INF:" = true →
      goHasPre tag2 "#EXT-X-STREAM-INF:" = true →
      parseMaster urlParse [tag1, uriLine, tag2, uriLine] = Except.ok mp →
      mp.streams.length = 1) ∧
    (∀ (rest : List String) (mp : MediaPlaylist),
      parseMediaLoop urlParse ("#EXTINF:6.0,T" :: "#comment" :: rest) mp
        = parseMediaLoop urlParse ("#comment" :: rest)
            { mp with segments := mp.segments
                ++ [{ uri := none, duration := "6.0", title := "T" }] }) ∧
    (∀ (rest : List String) (mp : MediaPlaylist),
      parseMediaLoop urlParse ("#EXTINF:6.0,T" :: "" :: rest) mp
        = parseMediaLoop urlParse ("" :: rest)
            { mp with segments := mp.segments
                ++ [{ uri := none, duration := "6.0", title := "T" }] }) := by
  have hsm : ∀ tag : String, goHasPre tag "#EXT-X-STREAM-INF:" = true →
      goHasPre tag "#EXT-X-MEDIA:" = false :=
    fun tag h => goHasPre_false tag _ _ h (by decide) (by decide)
  have hsk : ∀ tag : String, goHasPre tag "#EXT-X-STREAM-INF:" = true →
      goHasPre tag "#EXT-X-SESSION-KEY:" = false :=
    fun tag h => goHasPre_false tag _ _ h (by decide) (by decide)
  refine ⟨?_, ?_, ?_, ?_, ?_⟩
  · intro tag uriLine rest st h
    rw [parseMasterLoop.eq_def]
    simp only [hsm tag h, hsk tag h, h, Bool.false_eq_true, if_false, if_true]
  · intro tag st h
    rw [parseMasterLoop.eq_def]
    simp only [hsm tag h, hsk tag h, h, Bool.false_eq_true, if_false, if_true]
  · intro tag1 tag2 uriLine mp h1 h2 hok
    have hcount := parseMaster_streams_length urlParse _ mp hok
    have hev : masterEvents [tag1, uriLine, tag2, uriLine]
        = [MEvent.stream (parseAttributes tag1 "#EXT-X-STREAM-INF:") uriLine,
           MEvent.stream (parseAttributes tag2 "#EXT-X-STREAM-INF:") uriLine] := by
      rw [masterEvents.eq_def]
      simp only [hsm tag1 h1, hsk tag1 h1, h1, Bool.false_eq_true, if_false, if_true]
      rw [masterEvents.eq_def]
      simp only [hsm tag2 h2, hsk tag2 h2, h2, Bool.false_eq_true, if_false, if_true]
      rfl
    rw [hcount, hev]
    simp [urisOf, List.filterMap_cons]
  · intro rest mp
    rfl
  · intro rest mp
    rfl

/-- C10 witness: a `#EXT-X-STREAM-INF:` tag followed by an empty line,
by a comment line, or by nothing, and the `#EXTINF` contrast, at concrete
inputs. -/
theorem parseMaster_streaminf_consumes_next_witness :
    (parseMasterLoop (fun _ => none) ["#EXT-X-STREAM-INF:BANDWIDTH=1", ""] MState.init
      = parseMasterLoop (fun _ => none) []
          (stepStream (fun _ => none) MState.init
            (parseAttributes "#EXT-X-STREAM-INF:BANDWIDTH=1" "#EXT-X-STREAM-INF:") "")) ∧
    (parseMasterLoop (fun _ => none) ["#EXT-X-STREAM-INF:BANDWIDTH=1"] MState.init
      = MState.init) ∧
    (∃ mp, parseMaster (fun _ => none)
        ["#EXT-X-STREAM-INF:BANDWIDTH=1", "#comment", "#EXT-X-STREAM-INF:BANDWIDTH=2", "#comment"]
        = Except.ok mp ∧ mp.streams.length = 1) ∧
    (parseMediaLoop (fun _ => none) ["#EXTINF:6.0,T", "#comment"] MediaPlaylist.init
      = parseMediaLoop (fun _ => none) ["#comment"]
          { MediaPlaylist.init with
              segments := [{ uri := none, duration := "6.0", title := goTrimSpace "T" }] }) := by
  obtain ⟨ha, hb, hc, hd, he⟩ := parseMaster_streaminf_consumes_next (fun _ => none)
  refine ⟨ha "#EXT-X-STREAM-INF:BANDWIDTH=1" "" [] MState.init (by decide),
    hb "#EXT-X-STREAM-INF:BANDWIDTH=1" MState.init (by decide),
    ⟨_, rfl, hc "#EXT-X-STREAM-INF:BANDWIDTH=1" "#EXT-X-STREAM-INF:BANDWIDTH=2" "#comment" _
      (by decide) (by decide) rfl⟩,
    hd [] MediaPlaylist.init⟩
/-- Convenience form of the shared tag dispatch of `parseMediaLoop` on
one line, parameterized by what the `#EXTINF` branch does. -/
def mediaDispatch (urlParse : String → Option URL) (line : String) (mp : MediaPlaylist)
    (onRest : MediaPlaylist → Except String MediaPlaylist)
    (onExtinf : Except String MediaPlaylist) : Except String MediaPlaylist :=
  if goHasPre line "#EXT-X-VERSION:" then
    match goAtoiOk (goTrimPre line "#EXT-X-VERSION:") with
    | none => .error "invalid EXT-X-VERSION"
    | some v => onRest { mp with version := v }
  else if goHasPre line "#EXT-X-TARGETDURATION:" then
    match goAtoiOk (goTrimPre line "#EXT-X-TARGETDURATION:") with
    | none => .error "invalid EXT-X-TARGETDURATION"
    | some v => onRest { mp with targetDuration := v }
  else if goHasPre line "#EXT-X-MEDIA-SEQUENCE:" then
    match goAtoiOk (goTrimPre line "#EXT-X-MEDIA-SEQUENCE:") with
    | none => .error "invalid EXT-X-MEDIA-SEQUENCE"
    | some v => onRest { mp with mediaSequence := v }
  else if goHasPre line "#EXT-X-PLAYLIST-TYPE:" then
    onRest { mp with playlistType := goTrimPre line "#EXT-X-PLAYLIST-TYPE:" }
  else if goHasPre line "#EXT-X-ENDLIST" then
    onRest { mp with endList := true }
  else if goHasPre line "#EXT-X-KEY:" then
    onRest { mp with keys := mp.keys ++ [parseKey urlParse line] }
  else if goHasPre line "#EXT-X-MAP:" then
    onRest (applyMapTag urlParse mp line)
  else if goHasPre line "#EXTINF:" then
    if goParseFloatOk (cutComma (goTrimPre line "#EXTINF:")).1 then onExtinf
    else .error "invalid EXTINF duration"
  else onRest mp

theorem parseMediaLoop_one (urlParse : String → Option URL) (line : String) (mp : MediaPlaylist) :
    parseMediaLoop urlParse [line] mp =
      mediaDispatch urlParse line mp (parseMediaLoop urlParse [])
        (parseMediaLoop urlParse [] (addSeg mp (extinfSeg urlParse line none))) := rfl

theorem parseMediaLoop_two (urlParse : String → Option URL) (line nextLine : String)
    (rest2 : List String) (mp : MediaPlaylist) :
    parseMediaLoop urlParse (line :: nextLine :: rest2) mp =
      mediaDispatch urlParse line mp (parseMediaLoop urlParse (nextLine :: rest2))
        (if ¬ goHasPre nextLine "#" ∧ nextLine ≠ "" then
          parseMediaLoop urlParse rest2 (addSeg mp (extinfSeg urlParse line (some nextLine)))
        else
          parseMediaLoop urlParse (nextLine :: rest2) (addSeg mp (extinfSeg urlParse line none))) := rfl

/-- The hard-failure condition of one media-playlist line: a
`#EXT-X-VERSION:`, `#EXT-X-TARGETDURATION:` or `#EXT-X-MEDIA-SEQUENCE:`
remainder on which `strconv.Atoi` errors (not a base-10 integer, or out
of int64 range), or an `#EXTINF:` duration on which `strconv.ParseFloat`
errors (not a floating-point number per `goParseFloatOk`, including
float64 overflow); every other line is fine.  The result is the error
naming the offending tag. -/
def mediaLineErr (line : String) : Option String :=
  if goHasPre line "#EXT-X-VERSION:" then
    match goAtoiOk (goTrimPre line "#EXT-X-VERSION:") with
    | none => some "invalid EXT-X-VERSION"
    | some _ => none
  else if goHasPre line "#EXT-X-TARGETDURATION:" then
    match goAtoiOk (goTrimPre line "#EXT-X-TARGETDURATION:") with
    | none => some "invalid EXT-X-TARGETDURATION"
    | some _ => none
  else if goHasPre line "#EXT-X-MEDIA-SEQUENCE:" then
    match goAtoiOk (goTrimPre line "#EXT-X-MEDIA-SEQUENCE:") with
    | none => some "invalid EXT-X-MEDIA-SEQUENCE"
    | some _ => none
  else if goHasPre line "#EXTINF:" then
    if goParseFloatOk (cutComma (goTrimPre line "#EXTINF:")).1 then none
    else some "invalid EXTINF duration"
  else none

/-- The error of the first failing line, if any. -/
def firstErr : List String → Option String
  | [] => none
  | l :: ls =>
    match mediaLineErr l with
    | some e => some e
    | none => firstErr ls

theorem mediaLineErr_none_of_not_hash (line : String) (h : goHasPre line "#" = false) :
    mediaLineErr line = none := by
  have hfalse : ∀ p : String, "#".data <+: p.data → goHasPre line p = false := by
    intro p hp
    cases hc : goHasPre line p with
    | false => rfl
    | true => rw [goHasPre_mono line "#" p hp hc] at h; exact absurd h (by simp)
  rw [mediaLineErr, hfalse _ (by decide), hfalse _ (by decide), hfalse _ (by decide),
    hfalse _ (by decide)]
  simp

theorem firstErr_append_of_none (pre ls : List String)
    (h : ∀ l ∈ pre, mediaLineErr l = none) :
    firstErr (pre ++ ls) = firstErr ls := by
  induction pre with
  | nil => rfl
  | cons p ps ih =>
    rw [List.cons_append, firstErr, h p (List.mem_cons_self _ _),
      ih (fun l hl => h l (List.mem_cons_of_mem _ hl))]

theorem firstErr_eq_none_iff (lines : List String) :
    firstErr lines = none ↔ ∀ l ∈ lines, mediaLineErr l = none := by
  induction lines with
  | nil => simp [firstErr]
  | cons l ls ih =>
    rw [firstErr]
    cases h : mediaLineErr l with
    | some e =>
      simp only [reduceCtorEq, false_iff, not_forall]
      exact ⟨l, List.mem_cons_self _ _, by rw [h]; simp⟩
    | none =>
      rw [ih]
      constructor
      · intro ha x hx
        rcases List.mem_cons.mp hx with hx | hx
        · subst hx; exact h
        · exact ha x hx
      · intro ha x hx
        exact ha x (List.mem_cons_of_mem _ hx)

theorem mediaDispatch_err (urlParse : String → Option URL) (line : String) (mp : MediaPlaylist)
    (onRest : MediaPlaylist → Except String MediaPlaylist)
    (onExtinf : Except String MediaPlaylist) (e : String)
    (h : mediaLineErr line = some e) :
    mediaDispatch urlParse line mp onRest onExtinf = Except.error e := by
  rw [mediaLineErr] at h
  rw [mediaDispatch]
  by_cases h1 : goHasPre line "#EXT-X-VERSION:" = true
  · rw [if_pos h1] at h ⊢
    cases ha : goAtoiOk (goTrimPre line "#EXT-X-VERSION:") with
    | none => rw [ha] at h; injection h with h; rw [h]
    | some v => rw [ha] at h; exact absurd h (by simp)
  · rw [if_neg h1] at h ⊢
    by_cases h2 : goHasPre line "#EXT-X-TARGETDURATION:" = true
    · rw [if_pos h2] at h ⊢
      cases ha : goAtoiOk (goTrimPre line "#EXT-X-TARGETDURATION:") with
      | none => rw [ha] at h; injection h with h; rw [h]
      | some v => rw [ha] at h; exact absurd h (by simp)
    · rw [if_neg h2] at h ⊢
      by_cases h3 : goHasPre line "#EXT-X-MEDIA-SEQUENCE:" = true
      · rw [if_pos h3] at h ⊢
        cases ha : goAtoiOk (goTrimPre line "#EXT-X-MEDIA-SEQUENCE:") with
        | none => rw [ha] at h; injection h with h; rw [h]
        | some v => rw [ha] at h; exact absurd h (by simp)
      · rw [if_neg h3] at h ⊢
        by_cases h4 : goHasPre line "#EXTINF:" = true
        · rw [if_pos h4] at h
          have h5 : goHasPre line "#EXT-X-PLAYLIST-TYPE:" = false :=
            goHasPre_false line _ _ h4 (by decide) (by decide)
          have h6 : goHasPre line "#EXT-X-ENDLIST" = false :=
            goHasPre_false line _ _ h4 (by decide) (by decide)
          have h7 : goHasPre line "#EXT-X-KEY:" = false :=
            goHasPre_false line _ _ h4 (by decide) (by decide)
          have h8 : goHasPre line "#EXT-X-MAP:" = false :=
            goHasPre_false line _ _ h4 (by decide) (by decide)
          rw [h5, h6, h7, h8]
          simp only [Bool.false_eq_true, if_false, if_pos h4]
          by_cases hf : goParseFloatOk (cutComma (goTrimPre line "#EXTINF:")).1 = true
          · rw [if_pos hf] at h; exact absurd h (by simp)
          · rw [if_neg hf] at h
            injection h with h
            rw [if_neg hf, h]
        · rw [if_neg h4] at h
          exact absurd h (by simp)

theorem mediaDispatch_cases (urlParse : String → Option URL) (line : String) (mp : MediaPlaylist)
    (onRest : MediaPlaylist → Except String MediaPlaylist)
    (onExtinf : Except String MediaPlaylist)
    (C : Except String MediaPlaylist → Prop)
    (h : mediaLineErr line = none)
    (hrest : ∀ mp2, C (onRest mp2))
    (hext : C onExtinf) :
    C (mediaDispatch urlParse line mp onRest onExtinf) := by
  rw [mediaLineErr] at h
  rw [mediaDispatch]
  by_cases h1 : goHasPre line "#EXT-X-VERSION:" = true
  · rw [if_pos h1] at h ⊢
    cases ha : goAtoiOk (goTrimPre line "#EXT-X-VERSION:") with
    | none => rw [ha] at h; exact absurd h (by simp)
    | some v => exact hrest _
  · rw [if_neg h1] at h ⊢
    by_cases h2 : goHasPre line "#EXT-X-TARGETDURATION:" = true
    · rw [if_pos h2] at h ⊢
      cases ha : goAtoiOk (goTrimPre line "#EXT-X-TARGETDURATION:") with
      | none => rw [ha] at h; exact absurd h (by simp)
      | some v => exact hrest _
    · rw [if_neg h2] at h ⊢
      by_cases h3 : goHasPre line "#EXT-X-MEDIA-SEQUENCE:" = true
      · rw [if_pos h3] at h ⊢
        cases ha : goAtoiOk (goTrimPre line "#EXT-X-MEDIA-SEQUENCE:") with
        | none => rw [ha] at h; exact absurd h (by simp)
        | some v => exact hrest _
      · rw [if_neg h3] at h ⊢
        by_cases h4 : goHasPre line "#EXT-X-PLAYLIST-TYPE:" = true
        · rw [if_pos h4]; exact hrest _
        · rw [if_neg h4]
          by_cases h5 : goHasPre line "#EXT-X-ENDLIST" = true
          · rw [if_pos h5]; exact hrest _
          · rw [if_neg h5]
            by_cases h6 : goHasPre line "#EXT-X-KEY:" = true
            · rw [if_pos h6]; exact hrest _
            · rw [if_neg h6]
              by_cases h7 : goHasPre line "#EXT-X-MAP:" = true
              · rw [if_pos h7]; exact hrest _
              · rw [if_neg h7]
                by_cases h8 : goHasPre line "#EXTINF:" = true
                · rw [if_pos h8] at h ⊢
                  by_cases hf : goParseFloatOk (cutComma (goTrimPre line "#EXTINF:")).1 = true
                  · rw [if_pos hf]; exact hext
                  · rw [if_neg hf] at h; exact absurd h (by simp)
                · rw [if_neg h8]; exact hrest _

theorem parseMediaLoop_firstErr (urlParse : String → Option URL) :
    ∀ (n : Nat) (lines : List String), lines.length ≤ n → ∀ (mp : MediaPlaylist),
      (∀ e, firstErr lines = some e → parseMediaLoop urlParse lines mp = Except.error e) ∧
      (firstErr lines = none → ∃ mp2, parseMediaLoop urlParse lines mp = Except.ok mp2) := by
  intro n
  induction n with
  | zero =>
    intro lines hlen mp
    have hnil : lines = [] := List.eq_nil_of_length_eq_zero (Nat.le_zero.mp hlen)
    subst hnil
    exact ⟨fun e he => by simp [firstErr] at he, fun _ => ⟨mp, rfl⟩⟩
  | succ n ih =>
    intro lines hlen mp
    cases lines with
    | nil => exact ⟨fun e he => by simp [firstErr] at he, fun _ => ⟨mp, rfl⟩⟩
    | cons line rest =>
      cases rest with
      | nil =>
        constructor
        · intro e he
          cases hml : mediaLineErr line with
          | some e2 =>
            have he2 : e2 = e := by simp only [firstErr, hml] at he; injection he
            subst he2
            rw [parseMediaLoop_one]
            exact mediaDispatch_err urlParse line mp _ _ e2 hml
          | none => simp [firstErr, hml] at he
        · intro hnone
          cases hml : mediaLineErr line with
          | some e2 => exact absurd (by simp only [firstErr, hml] at hnone; exact hnone) (by simp)
          | none =>
            rw [parseMediaLoop_one]
            exact mediaDispatch_cases urlParse line mp _ _ (fun r => ∃ mp2, r = Except.ok mp2)
              hml (fun mp2 => ⟨mp2, rfl⟩) ⟨_, rfl⟩
      | cons nextLine rest2 =>
        have hlen1 : (nextLine :: rest2).length ≤ n := by
          simp only [List.length_cons] at hlen ⊢
          omega
        have hlen2 : rest2.length ≤ n := by
          simp only [List.length_cons] at hlen
          omega
        constructor
        · intro e he
          cases hml : mediaLineErr line with
          | some e2 =>
            have he2 : e2 = e := by simp only [firstErr, hml] at he; injection he
            subst he2
            rw [parseMediaLoop_two]
            exact mediaDispatch_err urlParse line mp _ _ e2 hml
          | none =>
            have he2 : firstErr (nextLine :: rest2) = some e := by
              simp only [firstErr, hml] at he
              exact he
            rw [parseMediaLoop_two]
            refine mediaDispatch_cases urlParse line mp _ _ (fun r => r = Except.error e) hml
              (fun mp2 => (ih (nextLine :: rest2) hlen1 mp2).1 e he2) ?_
            by_cases hc : ¬ goHasPre nextLine "#" = true ∧ nextLine ≠ ""
            · rw [if_pos hc]
              have hnl : mediaLineErr nextLine = none :=
                mediaLineErr_none_of_not_hash nextLine (by
                  cases hb : goHasPre nextLine "#" with
                  | false => rfl
                  | true => exact absurd hb hc.1)
              have he3 : firstErr rest2 = some e := by
                simp only [firstErr, hnl] at he2
                exact he2
              exact (ih rest2 hlen2 _).1 e he3
            · rw [if_neg hc]
              exact (ih (nextLine :: rest2) hlen1 _).1 e he2
        · intro hnone
          cases hml : mediaLineErr line with
          | some e2 => exact absurd (by simp only [firstErr, hml] at hnone; exact hnone) (by simp)
          | none =>
            have hn2 : firstErr (nextLine :: rest2) = none := by
              simp only [firstErr, hml] at hnone
              exact hnone
            rw [parseMediaLoop_two]
            refine mediaDispatch_cases urlParse line mp _ _ (fun r => ∃ mp2, r = Except.ok mp2)
              hml (fun mp2 => (ih (nextLine :: rest2) hlen1 mp2).2 hn2) ?_
            by_cases hc : ¬ goHasPre nextLine "#" = true ∧ nextLine ≠ ""
            · rw [if_pos hc]
              have hnl : mediaLineErr nextLine = none :=
                mediaLineErr_none_of_not_hash nextLine (by
                  cases hb : goHasPre nextLine "#" with
                  | false => rfl
                  | true => exact absurd hb hc.1)
              have hn3 : firstErr rest2 = none := by
                simp only [firstErr, hnl] at hn2
                exact hn2
              exact (ih rest2 hlen2 _).2 hn3
            · rw [if_neg hc]
              exact (ih (nextLine :: rest2) hlen1 _).2 hn2

/-- C5: `parseMedia` fails if and only if some line has a
`#EXT-X-VERSION:`, `#EXT-X-TARGETDURATION:` or `#EXT-X-MEDIA-SEQUENCE:`
remainder on which `strconv.Atoi` errors or an `#EXTINF:` duration on
which `strconv.ParseFloat` errors (`mediaLineErr`); every other line
sequence yields a playlist and no error, and on failure the single
returned error names the tag of the first such line, with no partial
playlist. -/
theorem parseMedia_error_iff (urlParse : String → Option URL) (lines : List String) :
    ((∃ mp, parseMedia urlParse lines = Except.ok mp) ↔ ∀ l ∈ lines, mediaLineErr l = none) ∧
    (∀ (pre : List String) (bad : String) (post : List String) (e : String),
      (∀ l ∈ pre, mediaLineErr l = none) → mediaLineErr bad = some e →
      parseMedia urlParse (pre ++ bad :: post) = Except.error e) := by
  constructor
  · constructor
    · rintro ⟨mp, hmp⟩
      rw [← firstErr_eq_none_iff]
      cases hfe : firstErr lines with
      | none => rfl
      | some e =>
        have := (parseMediaLoop_firstErr urlParse lines.length lines le_rfl
          MediaPlaylist.init).1 e hfe
        rw [parseMedia] at hmp
        rw [hmp] at this
        exact absurd this (by simp)
    · intro hall
      exact (parseMediaLoop_firstErr urlParse lines.length lines le_rfl MediaPlaylist.init).2
        ((firstErr_eq_none_iff lines).mpr hall)
  · intro pre bad post e hpre hbad
    have hfe : firstErr (pre ++ bad :: post) = some e := by
      rw [firstErr_append_of_none pre _ hpre]
      simp only [firstErr, hbad]
    exact (parseMediaLoop_firstErr urlParse (pre ++ bad :: post).length _ le_rfl
      MediaPlaylist.init).1 e hfe

/-- C5 witness: a malformed `#EXT-X-TARGETDURATION:` aborts with the
error naming that tag even though a later line is also malformed, and an
error-free playlist parses. -/
theorem parseMedia_error_iff_witness :
    parseMedia (fun _ => none)
        ["#EXT-X-VERSION:3", "#EXT-X-TARGETDURATION:x", "#EXTINF:bad,T"]
      = Except.error "invalid EXT-X-TARGETDURATION" ∧
    (∃ mp, parseMedia (fun _ => none)
        ["#EXT-X-VERSION:3", "#EXTINF:6.0,T", "seg.mp4"] = Except.ok mp) := by
  constructor
  · exact (parseMedia_error_iff (fun _ => none) []).2
      ["#EXT-X-VERSION:3"] "#EXT-X-TARGETDURATION:x" ["#EXTINF:bad,T"]
      "invalid EXT-X-TARGETDURATION" (by decide) (by decide)
  · exact ((parseMedia_error_iff (fun _ => none)
      ["#EXT-X-VERSION:3", "#EXTINF:6.0,T", "seg.mp4"]).1).mpr (by decide)

theorem segment_resolve_eq (rr : URL → URL → URL) (base : URL) (s : Segment) :
    Segment.resolve rr base s
      = { uri := s.uri.map (rr base), duration := s.duration, title := s.title } := by
  obtain ⟨uri, d, t⟩ := s
  cases uri <;> simp [Segment.resolve]

theorem key_resolve_eq (rr : URL → URL → URL) (base : URL) (k : SessionKey) :
    SessionKey.resolve rr base k
      = { method := k.method, uri := k.uri.map (rr base), keyFormat := k.keyFormat,
          keyFormatVersions := k.keyFormatVersions, iv := k.iv,
          characteristics := k.characteristics } := by
  obtain ⟨m, uri, kf, kfv, iv, ch⟩ := k
  cases uri <;> simp [SessionKey.resolve]

/-- C8: `ResolveURIs` (for both playlist kinds) maps exactly the URI
fields through `base.ResolveReference` — every segment URI, key URI, the
initialization-map URI, every stream URI, rendition URI and session-key
URI — `Option.map` leaves an absent URI absent, and every other field of
every record (and every list's length and order) is unchanged, for any
resolution function `rr`. -/
theorem ResolveURIs_frame (rr : URL → URL → URL) (base : URL) :
    (∀ mp : MediaPlaylist, MediaPlaylist.ResolveURIs rr base mp =
      { targetDuration := mp.targetDuration
        mediaSequence := mp.mediaSequence
        version := mp.version
        playlistType := mp.playlistType
        segments := mp.segments.map (fun s =>
          { uri := s.uri.map (rr base), duration := s.duration, title := s.title })
        keys := mp.keys.map (fun k =>
          { method := k.method, uri := k.uri.map (rr base), keyFormat := k.keyFormat,
            keyFormatVersions := k.keyFormatVersions, iv := k.iv,
            characteristics := k.characteristics })
        mapURI := mp.mapURI.map (rr base)
        endList := mp.endList }) ∧
    (∀ mp : MasterPlaylist, MasterPlaylist.ResolveURIs rr base mp =
      { streams := mp.streams.map (fun s =>
          { uri := s.uri.map (rr base), id := s.id, bandwidth := s.bandwidth,
            averageBandwidth := s.averageBandwidth, codecs := s.codecs,
            resolution := s.resolution, frameRate := s.frameRate,
            subtitles := s.subtitles, audioGroups := s.audioGroups })
        medias := mp.medias.map (fun r =>
          { type := r.type, groupID := r.groupID, name := r.name, language := r.language,
            uri := r.uri.map (rr base), autoSelect := r.autoSelect,
            isDefault := r.isDefault, forced := r.forced, channels := r.channels,
            characteristics := r.characteristics, id := r.id })
        sessionKeys := mp.sessionKeys.map (fun k =>
          { method := k.method, uri := k.uri.map (rr base), keyFormat := k.keyFormat,
            keyFormatVersions := k.keyFormatVersions, iv := k.iv,
            characteristics := k.characteristics }) }) := by
  constructor
  · intro mp
    rw [MediaPlaylist.ResolveURIs]
    have hseg : Segment.resolve rr base = fun s =>
        ({ uri := s.uri.map (rr base), duration := s.duration, title := s.title } : Segment) :=
      funext (segment_resolve_eq rr base)
    have hkey : SessionKey.resolve rr base = fun k =>
        ({ method := k.method, uri := k.uri.map (rr base), keyFormat := k.keyFormat,
           keyFormatVersions := k.keyFormatVersions, iv := k.iv,
           characteristics := k.characteristics } : SessionKey) :=
      funext (key_resolve_eq rr base)
    rw [hseg, hkey]
    cases h : mp.mapURI with
    | none => simp [h]
    | some u => simp [h]
  · intro mp
    rw [MasterPlaylist.ResolveURIs]
    have hkey : SessionKey.resolve rr base = fun k =>
        ({ method := k.method, uri := k.uri.map (rr base), keyFormat := k.keyFormat,
           keyFormatVersions := k.keyFormatVersions, iv := k.iv,
           characteristics := k.characteristics } : SessionKey) :=
      funext (key_resolve_eq rr base)
    rw [hkey]
    congr 1
    · refine List.map_congr_left (fun s _ => ?_)
      obtain ⟨uri, i, bw, abw, c, r, f, st, ag⟩ := s
      cases uri <;> simp
    · refine List.map_congr_left (fun r _ => ?_)
      obtain ⟨t, g, nm, lg, uri, a, d, fo, ch, cs, i⟩ := r
      cases uri <;> simp

/-- C6: `DecodeData` succeeds if and only if the key's URI is present,
its scheme is `data`, its scheme-specific part has a comma, the metadata
before the first comma contains `;base64` and the part after the first
comma is valid standard-alphabet base64; each violated condition yields
its own distinct error, decided without the later stages; and the
`data:text/plain;base64,aGVsbG8=` URI decodes to the bytes of
`hello`. -/
theorem DecodeData_characterization :
    (∀ k : SessionKey, (∃ bs, k.DecodeData = Except.ok bs) ↔
      ∃ u, k.uri = some u ∧ u.scheme = "data" ∧ (cutComma u.ssp).2.2 = true ∧
        goContains (cutComma u.ssp).1 ";base64" = true ∧
        (b64Decode (cutComma u.ssp).2.1).isSome = true) ∧
    (∀ k : SessionKey, k.uri = none → k.DecodeData = Except.error "URI is nil") ∧
    (∀ (k : SessionKey) (u : URL), k.uri = some u → u.scheme ≠ "data" →
      k.DecodeData = Except.error "URI is not a data URI") ∧
    (∀ (k : SessionKey) (u : URL), k.uri = some u → u.scheme = "data" →
      (cutComma u.ssp).2.2 = false →
      k.DecodeData = Except.error "invalid data URI: missing comma separator") ∧
    (∀ (k : SessionKey) (u : URL), k.uri = some u → u.scheme = "data" →
      (cutComma u.ssp).2.2 = true → goContains (cutComma u.ssp).1 ";base64" = false →
      k.DecodeData = Except.error "data URI does not contain base64 indicator") ∧
    (∀ (k : SessionKey) (u : URL), k.uri = some u → u.scheme = "data" →
      (cutComma u.ssp).2.2 = true → goContains (cutComma u.ssp).1 ";base64" = true →
      b64Decode (cutComma u.ssp).2.1 = none →
      k.DecodeData = Except.error "illegal base64 data") ∧
    (∀ (k : SessionKey) (u : URL), k.uri = some u → u.scheme = "data" →
      u.ssp = "text/plain;base64,aGVsbG8=" →
      k.DecodeData = Except.ok [104, 101, 108, 108, 111]) := by
  have hnil : ∀ k : SessionKey, k.uri = none → k.DecodeData = Except.error "URI is nil" := by
    intro k hu
    rw [SessionKey.DecodeData, hu]
  have hnotdata : ∀ (k : SessionKey) (u : URL), k.uri = some u → u.scheme ≠ "data" →
      k.DecodeData = Except.error "URI is not a data URI" := by
    intro k u hu hs
    rw [SessionKey.DecodeData, hu]
    show (if u.scheme ≠ "data" then Except.error "URI is not a data URI" else _) = _
    rw [if_pos hs]
  have hstep : ∀ (k : SessionKey) (u : URL), k.uri = some u → u.scheme = "data" →
      k.DecodeData = (
        if ¬ (cutComma u.ssp).2.2 then Except.error "invalid data URI: missing comma separator"
        else if ¬ goContains (cutComma u.ssp).1 ";base64" then
          Except.error "data URI does not contain base64 indicator"
        else match b64Decode (cutComma u.ssp).2.1 with
          | some bs => Except.ok bs
          | none => Except.error "illegal base64 data") := by
    intro k u hu hs
    rw [SessionKey.DecodeData, hu]
    show (if u.scheme ≠ "data" then Except.error "URI is not a data URI" else _) = _
    rw [if_neg (not_not_intro hs)]
  have hnocomma : ∀ (k : SessionKey) (u : URL), k.uri = some u → u.scheme = "data" →
      (cutComma u.ssp).2.2 = false →
      k.DecodeData = Except.error "invalid data URI: missing comma separator" := by
    intro k u hu hs hf
    rw [hstep k u hu hs, if_pos (by simp [hf])]
  have hnob64 : ∀ (k : SessionKey) (u : URL), k.uri = some u → u.scheme = "data" →
      (cutComma u.ssp).2.2 = true → goContains (cutComma u.ssp).1 ";base64" = false →
      k.DecodeData = Except.error "data URI does not contain base64 indicator" := by
    intro k u hu hs hf hc
    rw [hstep k u hu hs, if_neg (not_not_intro hf), if_pos (by simp [hc])]
  have hbad : ∀ (k : SessionKey) (u : URL), k.uri = some u → u.scheme = "data" →
      (cutComma u.ssp).2.2 = true → goContains (cutComma u.ssp).1 ";base64" = true →
      b64Decode (cutComma u.ssp).2.1 = none →
      k.DecodeData = Except.error "illegal base64 data" := by
    intro k u hu hs hf hc hd
    rw [hstep k u hu hs, if_neg (not_not_intro hf), if_neg (not_not_intro hc)]
    rw [hd]
  refine ⟨?_, hnil, hnotdata, hnocomma, hnob64, hbad, ?_⟩
  · intro k
    constructor
    · rintro ⟨bs, hbs⟩
      cases hu : k.uri with
      | none => rw [hnil k hu] at hbs; exact absurd hbs (by simp)
      | some u =>
        by_cases hs : u.scheme = "data"
        · refine ⟨u, rfl, hs, ?_⟩
          rw [hstep k u hu hs] at hbs
          by_cases hf : (cutComma u.ssp).2.2 = true
          · rw [if_neg (not_not_intro hf)] at hbs
            by_cases hc : goContains (cutComma u.ssp).1 ";base64" = true
            · rw [if_neg (not_not_intro hc)] at hbs
              cases hd : b64Decode (cutComma u.ssp).2.1 with
              | none => rw [hd] at hbs; exact absurd hbs (by simp)
              | some bs2 => exact ⟨hf, hc, by simp [hd]⟩
            · rw [if_pos hc] at hbs
              exact absurd hbs (by simp)
          · rw [if_pos hf] at hbs
            exact absurd hbs (by simp)
        · rw [hnotdata k u hu hs] at hbs
          exact absurd hbs (by simp)
    · rintro ⟨u, hu, hs, hf, hc, hd⟩
      rw [hstep k u hu hs, if_neg (not_not_intro hf), if_neg (not_not_intro hc)]
      rcases Option.isSome_iff_exists.mp hd with ⟨bs, hbs⟩
      exact ⟨bs, by rw [hbs]⟩
  · intro k u hu hs hssp
    rw [hstep k u hu hs, hssp]
    rfl

/-- C6 witness: the inline key of spec Scenario C decodes to the bytes
of `hello` (104,101,108,108,111), and a key with no URI yields the nil
error. -/
theorem DecodeData_characterization_witness :
    SessionKey.DecodeData
      { method := "AES-128"
        uri := some { scheme := "data", ssp := "text/plain;base64,aGVsbG8=", rest := "" }
        keyFormat := "", keyFormatVersions := "", iv := "", characteristics := "" }
      = Except.ok [104, 101, 108, 108, 111] ∧
    SessionKey.DecodeData
      { method := "AES-128", uri := none
        keyFormat := "", keyFormatVersions := "", iv := "", characteristics := "" }
      = Except.error "URI is nil" :=
  ⟨DecodeData_characterization.2.2.2.2.2.2 _ _ rfl rfl rfl,
   DecodeData_characterization.2.1 _ rfl⟩

/-!
The source's `(*MasterPlaylist).Sort` calls Go's `sort.Slice`, which is
documented as not stable.  To settle the stability claim against the
actual library behaviour, the following is a port of Go's `sort.Slice`
implementation (pdqsort, `sort/zsortfunc.go`, Go 1.19+) over an
`Array α` and a strict-order predicate `less`, with `uint64` arithmetic
as `Nat % 2^64` and every loop given ample fuel (each pdqsort loop
iteration strictly shrinks the segment, so `size + 1` fuel is never
exhausted).
-/

/-- Swap two positions of an array (in-range by construction). -/
def aswap {α : Type} [Inhabited α] (arr : Array α) (i j : Nat) : Array α :=
  let x := arr.getD i default
  let y := arr.getD j default
  (arr.setD i y).setD j x

/-- Compare the elements at two positions (Go `data.Less(i, j)`). -/
def aless {α : Type} [Inhabited α] (less : α → α → Bool) (arr : Array α) (i j : Nat) : Bool :=
  less (arr.getD i default) (arr.getD j default)

/-- Go `bits.Len`. -/
def bitsLen (n : Nat) : Nat :=
  if n = 0 then 0 else Nat.log2 n + 1

/-- Go `nextPowerOfTwo`. -/
def nextPowerOfTwo (length : Nat) : Nat :=
  1 <<< bitsLen length

/-- One step of Go's `xorshift.Next` on a `uint64` state; returns the
new state (which is also the drawn value). -/
def xorshiftNext (r : Nat) : Nat :=
  let r := (r ^^^ (r <<< 13)) % (2 ^ 64)
  let r := r ^^^ (r >>> 7)
  let r := (r ^^^ (r <<< 17)) % (2 ^ 64)
  r

/-- Go `insertionSort_func` inner loop: shift element `j` left while it
is less than its predecessor and `j > lo`. -/
def insertInner {α : Type} [Inhabited α] (less : α → α → Bool) (lo : Nat) :
    Nat → Array α → Nat → Array α
  | 0, arr, _ => arr
  | fuel + 1, arr, j =>
    if lo < j ∧ aless less arr j (j - 1) then
      insertInner less lo fuel (aswap arr j (j - 1)) (j - 1)
    else arr

/-- Go `insertionSort_func` outer loop over `i`. -/
def insertLoop {α : Type} [Inhabited α] (less : α → α → Bool) (lo hi : Nat) :
    Nat → Array α → Nat → Array α
  | 0, arr, _ => arr
  | fuel + 1, arr, i =>
    if i < hi then
      insertLoop less lo hi fuel (insertInner less lo (arr.size + 1) arr i) (i + 1)
    else arr

/-- Go `insertionSort_func`. -/
def insertionSortGo {α : Type} [Inhabited α] (less : α → α → Bool) (arr : Array α)
    (lo hi : Nat) : Array α :=
  insertLoop less lo hi (arr.size + 1) arr (lo + 1)

/-- Go `siftDown_func`. -/
def siftDownGo {α : Type} [Inhabited α] (less : α → α → Bool) (hi first : Nat) :
    Nat → Array α → Nat → Array α
  | 0, arr, _ => arr
  | fuel + 1, arr, root =>
    let child := 2 * root + 1
    if child ≥ hi then arr
    else
      let child := if child + 1 < hi ∧ aless less arr (first + child) (first + child + 1)
        then child + 1 else child
      if ¬ aless less arr (first + root) (first + child) then arr
      else siftDownGo less hi first fuel (aswap arr (first + root) (first + child)) child

/-- Go `heapSort_func` build phase, `i` counting down. -/
def heapBuild {α : Type} [Inhabited α] (less : α → α → Bool) (hi first : Nat) :
    Nat → Array α → Nat → Array α
  | 0, arr, _ => arr
  | fuel + 1, arr, i =>
    let arr := siftDownGo less hi first (arr.size + 1) arr i
    if i = 0 then arr else heapBuild less hi first fuel arr (i - 1)

/-- Go `heapSort_func` pop phase, `i` counting down. -/
def heapPop {α : Type} [Inhabited α] (less : α → α → Bool) (first : Nat) :
    Nat → Array α → Nat → Array α
  | 0, arr, _ => arr
  | fuel + 1, arr, i =>
    let arr := aswap arr first (first + i)
    let arr := siftDownGo less i first (arr.size + 1) arr 0
    if i = 0 then arr else heapPop less first fuel arr (i - 1)

/-- Go `heapSort_func`. -/
def heapSortGo {α : Type} [Inhabited α] (less : α → α → Bool) (arr : Array α)
    (a b : Nat) : Array α :=
  let hi := b - a
  if hi = 0 then arr
  else
    let arr := heapBuild less hi a (arr.size + 1) arr ((hi - 1) / 2)
    heapPop less a (arr.size + 1) arr (hi - 1)

/-- Go `order2_func`: order two indices, counting a swap. -/
def order2Go {α : Type} [Inhabited α] (less : α → α → Bool) (arr : Array α)
    (i j swaps : Nat) : Nat × Nat × Nat :=
  if aless less arr j i then (j, i, swaps + 1) else (i, j, swaps)

/-- Go `median_func`. -/
def medianGo {α : Type} [Inhabited α] (less : α → α → Bool) (arr : Array α)
    (i j k swaps : Nat) : Nat × Nat :=
  let (i, j, swaps) := order2Go less arr i j swaps
  let (j, k, swaps) := order2Go less arr j k swaps
  let (_, j2, swaps) := order2Go less arr i j swaps
  let _ := k
  (j2, swaps)

/-- Go `medianAdjacent_func`. -/
def medianAdjacentGo {α : Type} [Inhabited α] (less : α → α → Bool) (arr : Array α)
    (i swaps : Nat) : Nat × Nat :=
  medianGo less arr (i - 1) i (i + 1) swaps

/-- Hints of Go's `sortedHint`. -/
inductive SortedHint where
  | unknown
  | increasing
  | decreasing
deriving DecidableEq, Repr

/-- Go `choosePivot_func`: a pivot index and a sortedness hint. -/
def choosePivotGo {α : Type} [Inhabited α] (less : α → α → Bool) (arr : Array α)
    (a b : Nat) : Nat × SortedHint :=
  let l := b - a
  let i := a + l / 4 * 1
  let j := a + l / 4 * 2
  let k := a + l / 4 * 3
  let (j, swaps) :=
    if l ≥ 8 then
      let (i, j, k, swaps) :=
        if l ≥ 50 then
          let (i, swaps) := medianAdjacentGo less arr i 0
          let (j, swaps) := medianAdjacentGo less arr j swaps
          let (k, swaps) := medianAdjacentGo less arr k swaps
          (i, j, k, swaps)
        else (i, j, k, 0)
      medianGo less arr i j k swaps
    else (j, 0)
  if swaps = 0 then (j, .increasing)
  else if swaps = 12 then (j, .decreasing)
  else (j, .unknown)

/-- Go `reverseRange_func`. -/
def reverseRangeGo {α : Type} [Inhabited α] :
    Nat → Array α → Nat → Nat → Array α
  | 0, arr, _, _ => arr
  | fuel + 1, arr, i, j =>
    if i < j then reverseRangeGo fuel (aswap arr i j) (i + 1) (j - 1) else arr

/-- Go `breakPatterns_func`. -/
def breakPatternsGo {α : Type} [Inhabited α] (arr : Array α) (a b : Nat) : Array α :=
  let length := b - a
  if length ≥ 8 then
    let modulus := nextPowerOfTwo length
    let idx := a + length / 4 * 2 - 1
    let r0 := xorshiftNext (length % (2 ^ 64))
    let o0 := let o := r0 % modulus; if o ≥ length then o - length else o
    let arr := aswap arr (idx - 1 + 0) (a + o0)
    let r1 := xorshiftNext r0
    let o1 := let o := r1 % modulus; if o ≥ length then o - length else o
    let arr := aswap arr (idx - 1 + 1) (a + o1)
    let r2 := xorshiftNext r1
    let o2 := let o := r2 % modulus; if o ≥ length then o - length else o
    aswap arr (idx - 1 + 2) (a + o2)
  else arr

/-- Go `partialInsertionSort_func` scan: advance `i` to the first
descent at or after `i`. -/
def painsScan {α : Type} [Inhabited α] (less : α → α → Bool) (b : Nat) :
    Nat → Array α → Nat → Nat
  | 0, _, i => i
  | fuel + 1, arr, i =>
    if i < b ∧ ¬ aless less arr i (i - 1) then painsScan less b fuel arr (i + 1) else i

/-- Go `partialInsertionSort_func` left shift: shift the smaller element
left while it is less than its predecessor (absolute index down to 1). -/
def painsLeft {α : Type} [Inhabited α] (less : α → α → Bool) :
    Nat → Array α → Nat → Array α
  | 0, arr, _ => arr
  | fuel + 1, arr, j =>
    if 1 ≤ j then
      if ¬ aless less arr j (j - 1) then arr
      else painsLeft less fuel (aswap arr j (j - 1)) (j - 1)
    else arr

/-- Go `partialInsertionSort_func` right shift. -/
def painsRight {α : Type} [Inhabited α] (less : α → α → Bool) (b : Nat) :
    Nat → Array α → Nat → Array α
  | 0, arr, _ => arr
  | fuel + 1, arr, j =>
    if j < b then
      if ¬ aless less arr j (j - 1) then arr
      else painsRight less b fuel (aswap arr j (j - 1)) (j + 1)
    else arr

/-- Go `partialInsertionSort_func` outer loop (at most `maxSteps = 5`
corrections); returns the possibly-mutated array and whether the range
ended sorted. -/
def painsLoop {α : Type} [Inhabited α] (less : α → α → Bool) (a b : Nat) :
    Nat → Array α → Nat → Array α × Bool
  | 0, arr, _ => (arr, false)
  | steps + 1, arr, i =>
    let i := painsScan less b (arr.size + 1) arr i
    if i = b then (arr, true)
    else if b - a < 50 then (arr, false)
    else
      let arr := aswap arr i (i - 1)
      let arr := if i - a ≥ 2 then painsLeft less (arr.size + 1) arr (i - 1) else arr
      let arr := if b - i ≥ 2 then painsRight less b (arr.size + 1) arr (i + 1) else arr
      painsLoop less a b steps arr i

/-- Go `partialInsertionSort_func`. -/
def partialInsertionSortGo {α : Type} [Inhabited α] (less : α → α → Bool)
    (arr : Array α) (a b : Nat) : Array α × Bool :=
  painsLoop less a b 5 arr (a + 1)

/-- Go `partition_func` advance of `i` (while `i ≤ j ∧ Less(i, a)`). -/
def partAdvI {α : Type} [Inhabited α] (less : α → α → Bool) (a j : Nat) :
    Nat → Array α → Nat → Nat
  | 0, _, i => i
  | fuel + 1, arr, i =>
    if i ≤ j ∧ aless less arr i a then partAdvI less a j fuel arr (i + 1) else i

/-- Go `partition_func` retreat of `j` (while `i ≤ j ∧ ¬Less(j, a)`). -/
def partAdvJ {α : Type} [Inhabited α] (less : α → α → Bool) (a i : Nat) :
    Nat → Array α → Nat → Nat
  | 0, _, j => j
  | fuel + 1, arr, j =>
    if i ≤ j ∧ ¬ aless less arr j a then partAdvJ less a i fuel arr (j - 1) else j

/-- Go `partition_func` main exchange loop. -/
def partLoop {α : Type} [Inhabited α] (less : α → α → Bool) (a : Nat) :
    Nat → Array α → Nat → Nat → Array α × Nat
  | 0, arr, _, j => (arr, j)
  | fuel + 1, arr, i, j =>
    let i := partAdvI less a j (arr.size + 1) arr i
    let j := partAdvJ less a i (arr.size + 1) arr j
    if i > j then (arr, j)
    else partLoop less a fuel (aswap arr i j) (i + 1) (j - 1)

/-- Go `partition_func`: the final pivot position, whether the range was
already partitioned, and the mutated array. -/
def partitionGo {α : Type} [Inhabited α] (less : α → α → Bool) (arr : Array α)
    (a b pivot : Nat) : Array α × Nat × Bool :=
  let arr := aswap arr a pivot
  let i := partAdvI less a (b - 1) (arr.size + 1) arr (a + 1)
  let j := partAdvJ less a i (arr.size + 1) arr (b - 1)
  if i > j then
    let arr := aswap arr j a
    (arr, j, true)
  else
    let arr := aswap arr i j
    let (arr, j) := partLoop less a (arr.size + 1) arr (i + 1) (j - 1)
    let arr := aswap arr j a
    (arr, j, false)

/-- Go `partitionEqual_func` advance of `i` (while `i ≤ j ∧ ¬Less(a, i)`). -/
def partEqAdvI {α : Type} [Inhabited α] (less : α → α → Bool) (a j : Nat) :
    Nat → Array α → Nat → Nat
  | 0, _, i => i
  | fuel + 1, arr, i =>
    if i ≤ j ∧ ¬ aless less arr a i then partEqAdvI less a j fuel arr (i + 1) else i

/-- Go `partitionEqual_func` retreat of `j` (while `i ≤ j ∧ Less(a, j)`). -/
def partEqAdvJ {α : Type} [Inhabited α] (less : α → α → Bool) (a i : Nat) :
    Nat → Array α → Nat → Nat
  | 0, _, j => j
  | fuel + 1, arr, j =>
    if i ≤ j ∧ aless less arr a j then partEqAdvJ less a i fuel arr (j - 1) else j

/-- Go `partitionEqual_func` main loop; returns the array and `i`. -/
def partEqLoop {α : Type} [Inhabited α] (less : α → α → Bool) (a : Nat) :
    Nat → Array α → Nat → Nat → Array α × Nat
  | 0, arr, i, _ => (arr, i)
  | fuel + 1, arr, i, j =>
    let i := partEqAdvI less a j (arr.size + 1) arr i
    let j := partEqAdvJ less a i (arr.size + 1) arr j
    if i > j then (arr, i)
    else partEqLoop less a fuel (aswap arr i j) (i + 1) (j - 1)

/-- Go `partitionEqual_func`. -/
def partitionEqualGo {α : Type} [Inhabited α] (less : α → α → Bool) (arr : Array α)
    (a b pivot : Nat) : Array α × Nat :=
  let arr := aswap arr a pivot
  partEqLoop less a (arr.size + 1) arr (a + 1) (b - 1)

/-- Go `pdqsort_func` (one fuel unit per loop iteration; every iteration
strictly shrinks `b - a`). -/
def pdqsortGo {α : Type} [Inhabited α] (less : α → α → Bool) :
    Nat → Array α → Nat → Nat → Nat → Bool → Bool → Array α
  | 0, arr, _, _, _, _, _ => arr
  | fuel + 1, arr, a, b, limit, wasBalanced, wasPartitioned =>
    let length := b - a
    if length ≤ 12 then insertionSortGo less arr a b
    else if limit = 0 then heapSortGo less arr a b
    else
      let (arr, limit) :=
        if ¬ wasBalanced then (breakPatternsGo arr a b, limit - 1) else (arr, limit)
      let (pivot, hint) := choosePivotGo less arr a b
      let (arr, pivot, hint) :=
        if hint = SortedHint.decreasing then
          (reverseRangeGo (arr.size + 1) arr a (b - 1), (b - 1) - (pivot - a),
            SortedHint.increasing)
        else (arr, pivot, hint)
      let (arr, sortedEarly) :=
        if wasBalanced ∧ wasPartitioned ∧ hint = SortedHint.increasing then
          partialInsertionSortGo less arr a b
        else (arr, false)
      if sortedEarly then arr
      else if 0 < a ∧ ¬ aless less arr (a - 1) pivot then
        let (arr, mid) := partitionEqualGo less arr a b pivot
        pdqsortGo less fuel arr mid b limit wasBalanced wasPartitioned
      else
        let (arr, mid, alreadyPartitioned) := partitionGo less arr a b pivot
        let wasPartitioned := alreadyPartitioned
        let leftLen := mid - a
        let rightLen := b - mid
        let balanceThreshold := length / 8
        let wasBalanced := min leftLen rightLen ≥ balanceThreshold
        if leftLen < rightLen then
          let arr := pdqsortGo less fuel arr a mid limit true true
          pdqsortGo less fuel arr (mid + 1) b limit wasBalanced wasPartitioned
        else
          let arr := pdqsortGo less fuel arr (mid + 1) b limit true true
          pdqsortGo less fuel arr a mid limit wasBalanced wasPartitioned

/-- Go `sort.Slice` on a list: `pdqsort(0, n, bits.Len(n))`. -/
def sortSliceGo {α : Type} [Inhabited α] (less : α → α → Bool) (l : List α) : List α :=
  (pdqsortGo less (l.length + 1) l.toArray 0 l.length (bitsLen l.length) true true).toList

instance : Inhabited ExtStream :=
  ⟨{ uri := none, id := 0, bandwidth := 0, averageBandwidth := 0, codecs := ""
     resolution := "", frameRate := "", subtitles := "", audioGroups := [] }⟩

instance : Inhabited ExtMedia :=
  ⟨{ type := "", groupID := "", name := "", language := "", uri := none
     autoSelect := false, isDefault := false, forced := false, channels := ""
     characteristics := "", id := 0 }⟩

/-- Translation of the source's `(*MasterPlaylist).Sort`: `sort.Slice`
(the ported `sortSliceGo`) on the streams by `SortBandwidth` and on the
medias by `GroupID`. -/
def MasterPlaylist.Sort (mp : MasterPlaylist) : MasterPlaylist :=
  { mp with
    streams := sortSliceGo (fun x y => decide (x.SortBandwidth < y.SortBandwidth)) mp.streams
    medias := sortSliceGo (fun x y => decide (x.groupID < y.groupID)) mp.medias }

/-- A stream with a given identifier and bandwidth and no other data. -/
def bwStream (i : Nat) (bw : Int) : ExtStream :=
  { uri := none, id := i, bandwidth := bw, averageBandwidth := 0, codecs := ""
    resolution := "", frameRate := "", subtitles := "", audioGroups := [] }

/-- A thirteen-variant master playlist whose streams are in
first-appearance order (ids 0..12) with bandwidths
0,0,1,1,1,0,2,0,2,1,2,2,1 and averageBandwidth 0, so SortBandwidth is
the bandwidth. -/
def demoPlaylist : MasterPlaylist :=
  { streams := [bwStream 0 0, bwStream 1 0, bwStream 2 1, bwStream 3 1, bwStream 4 1,
      bwStream 5 0, bwStream 6 2, bwStream 7 0, bwStream 8 2, bwStream 9 1,
      bwStream 10 2, bwStream 11 2, bwStream 12 1]
    medias := []
    sessionKeys := [] }

/-- C3 evaluation: `Sort` (Go `sort.Slice`, which is not stable) on a
thirteen-variant playlist does NOT retain the original relative order of
equal sort-bandwidth streams: the bandwidth-0 streams enter in id order
0,1,5,7 and come out in order 5,1,0,7 (the first pdqsort partition pass
swaps equal elements across the pivot), so the stability asserted by the
specification fails; `sort.SliceStable` would be needed.  The playlist
is still correctly ordered by bandwidth. -/
theorem masterSort_reorders_equal_bandwidth :
    demoPlaylist.streams.map (fun s => (s.id, s.bandwidth))
      = [(0, 0), (1, 0), (2, 1), (3, 1), (4, 1), (5, 0), (6, 2), (7, 0), (8, 2), (9, 1),
         (10, 2), (11, 2), (12, 1)] ∧
    (MasterPlaylist.Sort demoPlaylist).streams.map (fun s => (s.id, s.bandwidth))
      = [(5, 0), (1, 0), (0, 0), (7, 0), (9, 1), (4, 1), (3, 1), (2, 1), (12, 1), (6, 2),
         (8, 2), (10, 2), (11, 2)] := by
  constructor
  · rfl
  · decide
